import Mathlib

/-!
Verification development for the `agentic-debugger` repository.

The program is modelled by a shallow embedding: file contents are lists of
characters (`Chars`), the filesystem is a map from paths to optional
contents together with a writability predicate, and the regex-based region
removal of `src/instrumenter.ts` is modelled by an explicit left-to-right
scanner implementing the semantics of the two patterns
`// #region <id>[^\n]*\n[\s\S]*?// #endregion[^\n]*\n?` (JS dialect) and
`# region <id>[^\n]*\n[\s\S]*?# endregion[^\n]*\n?` (Python dialect) under
JavaScript `String.replace` global-match semantics (leftmost match, lazy
interior, scan resumes after each match).  Region identifiers are treated
as literal text, which is accurate for every identifier the system
generates (`dbg-` followed by hex characters, no regex metacharacters).
-/

abbrev Chars := List Char

/-- Model of JavaScript `content.split('\n')` on character lists. -/
def splitNl : Chars → List Chars
  | [] => [[]]
  | c :: rest =>
    if c = '\n' then [] :: splitNl rest
    else
      match splitNl rest with
      | [] => [[c]]
      | l :: ls => (c :: l) :: ls

/-- Model of JavaScript `lines.join('\n')` on character lists. -/
def joinNl : List Chars → Chars
  | [] => []
  | l :: ls => l ++ if ls.isEmpty then [] else '\n' :: joinNl ls

/-- `freeOf c s`: character `c` does not occur in `s`. -/
def freeOf (c : Char) (s : Chars) : Bool := !(s.contains c)

theorem splitNl_ne_nil (s : Chars) : splitNl s ≠ [] := by
  cases s with
  | nil => simp [splitNl]
  | cons c rest =>
    simp only [splitNl]
    split
    · simp
    · cases h : splitNl rest with
      | nil => simp
      | cons l ls => simp

theorem joinNl_nil : joinNl [] = [] := rfl

theorem joinNl_single (l : Chars) : joinNl [l] = l := by
  simp [joinNl]

theorem joinNl_cons (l : Chars) (ls : List Chars) (h : ls ≠ []) :
    joinNl (l :: ls) = l ++ '\n' :: joinNl ls := by
  cases ls with
  | nil => exact absurd rfl h
  | cons x xs => simp [joinNl]

theorem joinNl_splitNl (s : Chars) : joinNl (splitNl s) = s := by
  induction s with
  | nil => rfl
  | cons c rest ih =>
    simp only [splitNl]
    by_cases hc : c = '\n'
    · subst hc
      rw [if_pos rfl, joinNl_cons [] (splitNl rest) (splitNl_ne_nil rest), ih]
      simp
    · rw [if_neg hc]
      cases h : splitNl rest with
      | nil => exact absurd h (splitNl_ne_nil rest)
      | cons l ls =>
        rw [h] at ih
        cases ls with
        | nil =>
          rw [joinNl_single] at ih
          rw [joinNl_single]
          simpa using congrArg (c :: ·) ih
        | cons y ys =>
          rw [joinNl_cons l (y :: ys) (by simp)] at ih
          rw [joinNl_cons (c :: l) (y :: ys) (by simp)]
          simpa using congrArg (c :: ·) ih

theorem splitNl_lines_nlFree (s : Chars) : ∀ l ∈ splitNl s, freeOf '\n' l = true := by
  induction s with
  | nil => simp [splitNl, freeOf]
  | cons c rest ih =>
    simp only [splitNl]
    by_cases hc : c = '\n'
    · subst hc
      rw [if_pos rfl]
      intro x hx
      rcases List.mem_cons.mp hx with h1 | h2
      · subst h1; simp [freeOf]
      · exact ih x h2
    · rw [if_neg hc]
      cases h : splitNl rest with
      | nil => exact absurd h (splitNl_ne_nil rest)
      | cons l ls =>
        rw [h] at ih
        intro x hx
        rcases List.mem_cons.mp hx with h1 | h2
        · subst h1
          have hl : freeOf '\n' l = true := ih l (by simp)
          simp only [freeOf, List.contains_cons, Bool.not_or, Bool.and_eq_true,
            Bool.not_eq_true'] at *
          refine ⟨?_, hl⟩
          simp only [beq_eq_false_iff_ne, ne_eq]
          intro hcc
          exact hc hcc.symm
        · exact ih x (by simp [h2])

theorem joinNl_append (xs ys : List Chars) (hx : xs ≠ []) (hy : ys ≠ []) :
    joinNl (xs ++ ys) = joinNl xs ++ '\n' :: joinNl ys := by
  induction xs with
  | nil => exact absurd rfl hx
  | cons l ls ih =>
    cases ls with
    | nil =>
      cases ys with
      | nil => exact absurd rfl hy
      | cons y ys' =>
        rw [joinNl_single]
        simpa using joinNl_cons l (y :: ys') (by simp)
    | cons l2 ls2 =>
      rw [List.cons_append, joinNl_cons l ((l2 :: ls2) ++ ys) (by simp),
          joinNl_cons l (l2 :: ls2) (by simp), ih (by simp)]
      simp

theorem freeOf_append (c : Char) (u v : Chars) :
    freeOf c (u ++ v) = (freeOf c u && freeOf c v) := by
  simp only [freeOf]
  induction u with
  | nil => simp
  | cons x xs ih =>
    simp only [List.cons_append, List.contains_cons, Bool.not_or, ih, Bool.and_assoc]

theorem freeOf_iff (c : Char) (s : Chars) : freeOf c s = true ↔ c ∉ s := by
  induction s with
  | nil => simp [freeOf]
  | cons x xs ih =>
    simp only [freeOf, List.contains_cons, Bool.not_or, Bool.and_eq_true,
      Bool.not_eq_true', List.mem_cons] at *
    constructor
    · rintro ⟨h1, h2⟩ (h | h)
      · rw [h] at h1; simp at h1
      · exact ih.mp h2 h
    · intro h
      refine ⟨?_, ih.mpr fun hm => h (Or.inr hm)⟩
      simp only [beq_eq_false_iff_ne, ne_eq]
      intro hcc
      exact h (Or.inl hcc)

theorem freeOf_cons (c x : Char) (xs : Chars) :
    freeOf c (x :: xs) = (!(c == x) && freeOf c xs) := by
  simp only [freeOf, List.contains_cons, Bool.not_or]


/-! ### Substring search primitives

`afterFirstSub pat s` returns the remainder of `s` after the first
(leftmost) occurrence of `pat`, mirroring how a lazy `[\s\S]*?` followed by
a literal finds the earliest occurrence of that literal.  `containsSub` is
the induced occurrence test. -/

def afterFirstSub (pat : Chars) : Chars → Option Chars
  | [] => if pat.isEmpty then some [] else none
  | c :: rest =>
    if pat.isPrefixOf (c :: rest) then some ((c :: rest).drop pat.length)
    else afterFirstSub pat rest

def containsSub (pat s : Chars) : Bool := (afterFirstSub pat s).isSome

/-- Remainder of `s` after its first newline (the regex `[^\n]*\n`). -/
def afterFirstNl : Chars → Option Chars
  | [] => none
  | c :: rest => if c = '\n' then some rest else afterFirstNl rest

/-- Consume `[^\n]*\n?`: the rest of the current line and, when present,
its terminating newline. -/
def skipRestOfLine : Chars → Chars
  | [] => []
  | c :: rest => if c = '\n' then rest else skipRestOfLine rest

/-- One attempt of the region pattern at the current position of `s`:
start literal, rest of the start line, a newline, lazily up to the end
literal, rest of the end line and an optional newline.  Returns the
remainder of `s` after the match. -/
def matchRegionAt (sl el : Chars) (s : Chars) : Option Chars :=
  if sl.isPrefixOf s then
    match afterFirstNl (s.drop sl.length) with
    | none => none
    | some r1 =>
      match afterFirstSub el r1 with
      | none => none
      | some r2 => some (skipRestOfLine r2)
  else none

theorem afterFirstNl_length {s r : Chars} (h : afterFirstNl s = some r) :
    r.length < s.length := by
  induction s with
  | nil => simp [afterFirstNl] at h
  | cons c rest ih =>
    simp only [afterFirstNl] at h
    split at h
    · cases h; simp
    · exact Nat.lt_trans (ih h) (by simp)

theorem afterFirstSub_length {pat s r : Chars} (hp : pat ≠ [])
    (h : afterFirstSub pat s = some r) : r.length < s.length := by
  induction s with
  | nil =>
    simp only [afterFirstSub, List.isEmpty_iff] at h
    split at h
    · exact absurd (by assumption) hp
    · cases h
  | cons c rest ih =>
    simp only [afterFirstSub] at h
    split at h
    · cases h
      have hle : pat.length ≤ (c :: rest).length :=
        (List.isPrefixOf_iff_prefix.mp (by assumption)).length_le
      have hpos : 0 < pat.length := List.length_pos.mpr hp
      simp only [List.length_drop]
      omega
    · exact Nat.lt_trans (ih h) (by simp)

theorem skipRestOfLine_length (s : Chars) : (skipRestOfLine s).length ≤ s.length := by
  induction s with
  | nil => simp [skipRestOfLine]
  | cons c rest ih =>
    simp only [skipRestOfLine]
    split
    · simp
    · exact Nat.le_trans ih (by simp)

theorem matchRegionAt_length {sl el s r : Chars} (hsl : sl ≠ []) (hel : el ≠ [])
    (h : matchRegionAt sl el s = some r) : r.length < s.length := by
  simp only [matchRegionAt] at h
  split at h
  · rename_i hpre
    cases h1 : afterFirstNl (s.drop sl.length) with
    | none => simp only [h1] at h; cases h
    | some r1 =>
      simp only [h1] at h
      cases h2 : afterFirstSub el r1 with
      | none => simp only [h2] at h; cases h
      | some r2 =>
        simp only [h2, Option.some.injEq] at h
        subst h
        have l1 : r1.length < (s.drop sl.length).length := afterFirstNl_length h1
        have l2 : r2.length < r1.length := afterFirstSub_length hel h2
        have l3 := skipRestOfLine_length r2
        simp only [List.length_drop] at l1
        omega
  · cases h

/-! ### The global-replace scanner

`removeScan sl el s` walks `s` from the left; wherever a full region match
starts it deletes the matched span (counting it) and resumes after it,
otherwise it keeps the current character.  This is JavaScript
`s.replace(pattern, '')` together with `s.match(pattern).length` for the
two region patterns.  A fuel parameter keeps the recursion structural so
that concrete inputs evaluate by `rfl`/`decide`. -/

def removeScanF (sl el : Chars) : Nat → Chars → Nat × Chars
  | _, [] => (0, [])
  | 0, s => (0, s)
  | fuel+1, c :: rest =>
    match matchRegionAt sl el (c :: rest) with
    | some r =>
      let p := removeScanF sl el fuel r
      (p.1 + 1, p.2)
    | none =>
      let p := removeScanF sl el fuel rest
      (p.1, c :: p.2)

def removeScan (sl el s : Chars) : Nat × Chars := removeScanF sl el s.length s

theorem removeScanF_nil (sl el : Chars) (fuel : Nat) : removeScanF sl el fuel [] = (0, []) := by
  cases fuel <;> rfl

theorem removeScanF_congr (sl el : Chars) (hsl : sl ≠ []) (hel : el ≠ []) :
    ∀ f₁ f₂ s, s.length ≤ f₁ → s.length ≤ f₂ →
      removeScanF sl el f₁ s = removeScanF sl el f₂ s := by
  intro f₁
  induction f₁ with
  | zero =>
    intro f₂ s h1 h2
    have : s = [] := List.length_eq_zero.mp (Nat.le_zero.mp h1)
    subst this
    rw [removeScanF_nil, removeScanF_nil]
  | succ f ih =>
    intro f₂ s h1 h2
    cases s with
    | nil => rw [removeScanF_nil, removeScanF_nil]
    | cons c rest =>
      cases f₂ with
      | zero => simp at h2
      | succ f₂' =>
        cases hm : matchRegionAt sl el (c :: rest) with
        | some r =>
          have hr : r.length < (c :: rest).length := matchRegionAt_length hsl hel hm
          simp only [List.length_cons] at h1 h2 hr
          simp only [removeScanF, hm]
          rw [ih f₂' r (by omega) (by omega)]
        | none =>
          simp only [List.length_cons] at h1 h2
          simp only [removeScanF, hm]
          rw [ih f₂' rest (by omega) (by omega)]

theorem removeScan_nil (sl el : Chars) : removeScan sl el [] = (0, []) := rfl

theorem removeScan_cons_match {sl el : Chars} (hsl : sl ≠ []) (hel : el ≠ [])
    {c : Char} {rest r : Chars} (hm : matchRegionAt sl el (c :: rest) = some r) :
    removeScan sl el (c :: rest) =
      ((removeScan sl el r).1 + 1, (removeScan sl el r).2) := by
  have hr : r.length < (c :: rest).length := matchRegionAt_length hsl hel hm
  simp only [List.length_cons] at hr
  simp only [removeScan, List.length_cons, removeScanF, hm]
  rw [removeScanF_congr sl el hsl hel rest.length r.length r (by omega) (by omega)]

theorem removeScan_cons_nomatch {sl el : Chars} (_hsl : sl ≠ []) (_hel : el ≠ [])
    {c : Char} {rest : Chars} (hm : matchRegionAt sl el (c :: rest) = none) :
    removeScan sl el (c :: rest) =
      ((removeScan sl el rest).1, c :: (removeScan sl el rest).2) := by
  simp only [removeScan, List.length_cons, removeScanF, hm]

/-! ### Occurrence lemmas -/

theorem containsSub_nil (pat : Chars) : containsSub pat [] = pat.isEmpty := by
  simp only [containsSub, afterFirstSub]
  split <;> simp_all

theorem containsSub_cons (pat : Chars) (c : Char) (rest : Chars) :
    containsSub pat (c :: rest) = (pat.isPrefixOf (c :: rest) || containsSub pat rest) := by
  simp only [containsSub, afterFirstSub]
  split <;> simp_all

theorem containsSub_iff_exists (pat s : Chars) :
    containsSub pat s = true ↔ ∃ x y, s = x ++ pat ++ y := by
  constructor
  · intro h
    induction s with
    | nil =>
      rw [containsSub_nil, List.isEmpty_iff] at h
      exact ⟨[], [], by simp [h]⟩
    | cons c rest ih =>
      rw [containsSub_cons, Bool.or_eq_true] at h
      rcases h with h | h
      · obtain ⟨t, ht⟩ := List.isPrefixOf_iff_prefix.mp h
        exact ⟨[], t, by simp [ht.symm]⟩
      · obtain ⟨x, y, hxy⟩ := ih h
        exact ⟨c :: x, y, by simp [hxy]⟩
  · rintro ⟨x, y, rfl⟩
    induction x with
    | nil =>
      cases pat with
      | nil =>
        cases y with
        | nil => simp [containsSub_nil]
        | cons c r => simp [containsSub_cons, List.isPrefixOf]
      | cons p pr =>
        rw [List.nil_append, List.cons_append, containsSub_cons]
        have : (p :: pr).isPrefixOf (p :: pr ++ y) = true :=
          List.isPrefixOf_iff_prefix.mpr (List.prefix_append _ _)
        simp only [List.cons_append] at this
        simp [this]
    | cons c x' ih =>
      rw [List.cons_append, List.cons_append, containsSub_cons]
      have : containsSub pat (x' ++ pat ++ y) = true := ih
      rw [List.append_assoc] at this
      simp [this]

theorem containsSub_of_isPrefixOf {pat s : Chars} (h : pat.isPrefixOf s = true) :
    containsSub pat s = true := by
  obtain ⟨t, ht⟩ := List.isPrefixOf_iff_prefix.mp h
  exact (containsSub_iff_exists pat s).mpr ⟨[], t, by simp [ht.symm]⟩

theorem containsSub_append_right {pat u : Chars} (v : Chars)
    (h : containsSub pat u = true) : containsSub pat (u ++ v) = true := by
  obtain ⟨x, y, rfl⟩ := (containsSub_iff_exists pat u).mp h
  exact (containsSub_iff_exists _ _).mpr ⟨x, y ++ v, by simp⟩

theorem containsSub_append_left {pat v : Chars} (u : Chars)
    (h : containsSub pat v = true) : containsSub pat (u ++ v) = true := by
  obtain ⟨x, y, rfl⟩ := (containsSub_iff_exists pat v).mp h
  exact (containsSub_iff_exists _ _).mpr ⟨u ++ x, y, by simp⟩

/-- A newline-free pattern that is a prefix of `u ++ '\n' :: v` is already a
prefix of `u`: it cannot reach across the newline. -/
theorem prefix_of_prefix_nl {pat u v : Chars} (h : pat <+: u ++ '\n' :: v)
    (hnl : freeOf '\n' pat = true) : pat <+: u := by
  by_cases hl : pat.length ≤ u.length
  · exact List.prefix_of_prefix_length_le h (List.prefix_append u ('\n' :: v)) hl
  · exfalso
    have hi : u.length < pat.length := Nat.lt_of_not_le hl
    have hi2 : u.length < (u ++ '\n' :: v).length := by simp
    have h1 : pat.get ⟨u.length, hi⟩ = (u ++ '\n' :: v).get ⟨u.length, hi2⟩ := by
      have h3 := List.IsPrefix.getElem h hi
      simpa using h3
    have h2 : (u ++ '\n' :: v).get ⟨u.length, hi2⟩ = '\n' := by
      simp only [List.get_eq_getElem]
      rw [List.getElem_append_right (Nat.le_refl _)]
      simp
    have : '\n' ∈ pat := by
      rw [← h1] at h2
      exact h2 ▸ List.get_mem pat u.length hi
    exact (freeOf_iff '\n' pat).mp hnl this

theorem containsSub_append_nl {pat : Chars} (u v : Chars) (hp : pat ≠ [])
    (hnl : freeOf '\n' pat = true) :
    containsSub pat (u ++ '\n' :: v) = true ↔
      (containsSub pat u = true ∨ containsSub pat v = true) := by
  induction u with
  | nil =>
    rw [List.nil_append, containsSub_cons, containsSub_nil, Bool.or_eq_true]
    constructor
    · rintro (h | h)
      · exfalso
        cases pat with
        | nil => exact hp rfl
        | cons p pr =>
          obtain ⟨t, ht⟩ := List.isPrefixOf_iff_prefix.mp h
          rw [List.cons_append] at ht
          injection ht with h1 h2
          exact (freeOf_iff '\n' _).mp hnl (by simp [h1])
      · exact Or.inr h
    · rintro (h | h)
      · rw [List.isEmpty_iff] at h; exact absurd h hp
      · exact Or.inr (by simp [h])
  | cons c u' ih =>
    rw [List.cons_append, containsSub_cons, containsSub_cons, Bool.or_eq_true,
      Bool.or_eq_true]
    constructor
    · rintro (h | h)
      · left; left
        have hpre : pat <+: c :: u' :=
          prefix_of_prefix_nl (by simpa using List.isPrefixOf_iff_prefix.mp h) hnl
        exact List.isPrefixOf_iff_prefix.mpr hpre
      · rcases ih.mp h with h1 | h1
        · exact Or.inl (Or.inr h1)
        · exact Or.inr h1
    · rintro ((h | h) | h)
      · left
        exact List.isPrefixOf_iff_prefix.mpr
          ((List.isPrefixOf_iff_prefix.mp h).trans (by simpa using List.prefix_append (c :: u') ('\n' :: v)))
      · exact Or.inr (ih.mpr (Or.inl h))
      · exact Or.inr (ih.mpr (Or.inr h))

theorem afterFirstSub_append_nl {pat : Chars} (u v : Chars) (hp : pat ≠ [])
    (hnl : freeOf '\n' pat = true) (hu : containsSub pat u = false) :
    afterFirstSub pat (u ++ '\n' :: v) = afterFirstSub pat v := by
  induction u with
  | nil =>
    rw [List.nil_append]
    simp only [afterFirstSub]
    split
    · rename_i h
      exfalso
      cases pat with
      | nil => exact hp rfl
      | cons p pr =>
        obtain ⟨t, ht⟩ := List.isPrefixOf_iff_prefix.mp h
        rw [List.cons_append] at ht
        injection ht with h1 h2
        exact (freeOf_iff '\n' _).mp hnl (by simp [h1])
    · rfl
  | cons c u' ih =>
    rw [containsSub_cons, Bool.or_eq_false_iff] at hu
    rw [List.cons_append]
    simp only [afterFirstSub]
    split
    · rename_i h
      exfalso
      have hpre : pat <+: c :: u' :=
        prefix_of_prefix_nl (by simpa using List.isPrefixOf_iff_prefix.mp h) hnl
      have hb : pat.isPrefixOf (c :: u') = true := List.isPrefixOf_iff_prefix.mpr hpre
      rw [hb] at hu
      exact absurd hu.1 (by simp)
    · exact ih hu.2

theorem afterFirstSub_self {pat : Chars} (z : Chars) (hp : pat ≠ []) :
    afterFirstSub pat (pat ++ z) = some z := by
  cases pat with
  | nil => exact absurd rfl hp
  | cons p pr =>
    rw [List.cons_append]
    simp only [afterFirstSub]
    split
    · congr 1
      have := List.drop_left (p :: pr) z
      simpa using this
    · rename_i hfail
      exfalso
      apply hfail
      have := List.isPrefixOf_iff_prefix.mpr (List.prefix_append (p :: pr) z)
      simpa using this

theorem freeOf_head_ne {c x : Char} {xs : Chars} (h : freeOf c (x :: xs) = true) :
    ¬(x = c) ∧ freeOf c xs = true := by
  rw [freeOf_cons, Bool.and_eq_true] at h
  refine ⟨?_, h.2⟩
  intro he
  have h1 := h.1
  simp [he] at h1

theorem afterFirstNl_of_nlFree {s : Chars} (h : freeOf '\n' s = true) :
    afterFirstNl s = none := by
  induction s with
  | nil => rfl
  | cons c rest ih =>
    simp only [afterFirstNl]
    rw [if_neg (freeOf_head_ne h).1]
    exact ih (freeOf_head_ne h).2

theorem afterFirstNl_append {u : Chars} (v : Chars) (h : freeOf '\n' u = true) :
    afterFirstNl (u ++ '\n' :: v) = some v := by
  induction u with
  | nil => simp [afterFirstNl]
  | cons c rest ih =>
    rw [List.cons_append]
    simp only [afterFirstNl]
    rw [if_neg (freeOf_head_ne h).1]
    exact ih (freeOf_head_ne h).2

theorem skipRestOfLine_append {u : Chars} (v : Chars) (h : freeOf '\n' u = true) :
    skipRestOfLine (u ++ '\n' :: v) = v := by
  induction u with
  | nil => simp [skipRestOfLine]
  | cons c rest ih =>
    rw [List.cons_append]
    simp only [skipRestOfLine]
    rw [if_neg (freeOf_head_ne h).1]
    exact ih (freeOf_head_ne h).2

theorem skipRestOfLine_of_nlFree {s : Chars} (h : freeOf '\n' s = true) :
    skipRestOfLine s = [] := by
  induction s with
  | nil => rfl
  | cons c rest ih =>
    simp only [skipRestOfLine]
    rw [if_neg (freeOf_head_ne h).1]
    exact ih (freeOf_head_ne h).2

theorem freeOf_drop (c : Char) {s : Chars} (n : Nat) (h : freeOf c s = true) :
    freeOf c (s.drop n) = true := by
  rw [freeOf_iff] at *
  intro hm
  exact h (List.mem_of_mem_drop hm)

/-! ### Scanner behaviour on structured text -/

theorem matchRegionAt_none_of_not_starting {sl el s : Chars}
    (h : sl.isPrefixOf s = false) : matchRegionAt sl el s = none := by
  simp [matchRegionAt, h]

theorem matchRegionAt_none_of_nlFree {sl el s : Chars} (h : freeOf '\n' s = true) :
    matchRegionAt sl el s = none := by
  simp only [matchRegionAt]
  split
  · rw [afterFirstNl_of_nlFree (freeOf_drop '\n' sl.length h)]
  · rfl

theorem removeScan_of_nlFree {sl el : Chars} (hsl : sl ≠ []) (hel : el ≠ [])
    {s : Chars} (h : freeOf '\n' s = true) : removeScan sl el s = (0, s) := by
  induction s with
  | nil => exact removeScan_nil sl el
  | cons c rest ih =>
    rw [removeScan_cons_nomatch hsl hel (matchRegionAt_none_of_nlFree h),
        ih (freeOf_head_ne h).2]

theorem removeScan_skip_line {sl el : Chars} (hsl : sl ≠ []) (hel : el ≠ [])
    (hslnl : freeOf '\n' sl = true) :
    ∀ (u v : Chars), containsSub sl u = false →
      removeScan sl el (u ++ '\n' :: v) =
        ((removeScan sl el v).1, u ++ '\n' :: (removeScan sl el v).2) := by
  intro u
  induction u with
  | nil =>
    intro v _
    have hpre : sl.isPrefixOf ('\n' :: v) = false := by
      by_contra hc
      rw [Bool.not_eq_false] at hc
      cases sl with
      | nil => exact hsl rfl
      | cons p pr =>
        obtain ⟨t, ht⟩ := List.isPrefixOf_iff_prefix.mp hc
        rw [List.cons_append] at ht
        injection ht with h1 h2
        exact (freeOf_iff '\n' _).mp hslnl (by simp [h1])
    rw [List.nil_append,
        removeScan_cons_nomatch hsl hel (matchRegionAt_none_of_not_starting hpre)]
    simp
  | cons c u' ih =>
    intro v hu
    rw [containsSub_cons, Bool.or_eq_false_iff] at hu
    have hpre : sl.isPrefixOf (c :: u' ++ '\n' :: v) = false := by
      by_contra hc
      rw [Bool.not_eq_false] at hc
      have h1 : sl <+: c :: u' := by
        have h2 := List.isPrefixOf_iff_prefix.mp hc
        rw [List.cons_append] at h2
        exact prefix_of_prefix_nl (by simpa using h2) hslnl
      have h3 := containsSub_of_isPrefixOf (List.isPrefixOf_iff_prefix.mpr h1)
      rw [containsSub_cons] at h3
      rw [List.isPrefixOf_iff_prefix.mpr h1] at hu
      exact absurd hu.1 (by simp)
    rw [List.cons_append,
        removeScan_cons_nomatch hsl hel
          (matchRegionAt_none_of_not_starting (by simpa using hpre))]
    rw [ih v hu.2]
    simp

theorem removeScan_skip_lines {sl el : Chars} (hsl : sl ≠ []) (hel : el ≠ [])
    (hslnl : freeOf '\n' sl = true) :
    ∀ (ls : List Chars) (v : Chars),
      (∀ l ∈ ls, freeOf '\n' l = true ∧ containsSub sl l = false) →
      removeScan sl el (joinNl ls ++ '\n' :: v) =
        ((removeScan sl el v).1, joinNl ls ++ '\n' :: (removeScan sl el v).2) := by
  intro ls
  induction ls with
  | nil =>
    intro v _
    have h0 : containsSub sl [] = false := by
      rw [containsSub_nil]
      cases sl with
      | nil => exact absurd rfl hsl
      | cons p pr => rfl
    simpa using removeScan_skip_line hsl hel hslnl [] v h0
  | cons l ls' ih =>
    intro v hls
    cases hls' : ls' with
    | nil =>
      rw [joinNl_single]
      exact removeScan_skip_line hsl hel hslnl l v (hls l (by simp)).2
    | cons x xs =>
      rw [← hls']
      have hne : ls' ≠ [] := by simp [hls']
      rw [joinNl_cons l ls' hne, List.append_assoc, List.cons_append]
      rw [removeScan_skip_line hsl hel hslnl l _ (hls l (by simp)).2]
      rw [ih v (fun x hx => hls x (by simp [hx]))]
      simp

/-- After skipping interior lines clean of the end literal, the first
occurrence of the end literal in the tail of a region is the end-marker
line itself. -/
theorem afterFirstSub_skip_clean_lines {el : Chars} (hel : el ≠ [])
    (helnl : freeOf '\n' el = true) :
    ∀ (b : List Chars) (z : Chars),
      (∀ l ∈ b, freeOf '\n' l = true ∧ containsSub el l = false) →
      afterFirstSub el (joinNl (b ++ z :: [])) = afterFirstSub el (joinNl [z]) ∧
      (∀ F, F ≠ [] →
        afterFirstSub el (joinNl (b ++ z :: F)) = afterFirstSub el (joinNl (z :: F))) := by
  intro b
  induction b with
  | nil => intro z _; exact ⟨rfl, fun F _ => rfl⟩
  | cons l b' ih =>
    intro z hb
    constructor
    · rw [List.cons_append, joinNl_cons l (b' ++ [z]) (by simp)]
      rw [afterFirstSub_append_nl _ _ hel helnl (hb l (by simp)).2]
      exact (ih z (fun x hx => hb x (by simp [hx]))).1
    · intro F hF
      rw [List.cons_append, joinNl_cons l (b' ++ z :: F) (by simp)]
      rw [afterFirstSub_append_nl _ _ hel helnl (hb l (by simp)).2]
      exact (ih z (fun x hx => hb x (by simp [hx]))).2 F hF

/-! ### Structured text: interleavings of plain lines and delimited regions -/

inductive RItem : Type where
  | plain (l : Chars)
  | reg (s : Chars) (b : List Chars) (e : Chars)
deriving DecidableEq

def RItem.lines : RItem → List Chars
  | .plain l => [l]
  | .reg s b e => s :: b ++ [e]

/-- Render a structured item list to file text: the flattened lines joined
by newlines. -/
def renderItems (its : List RItem) : Chars := joinNl (its.map RItem.lines).flatten

/-- The item is transparent to a scan for start literal `sl`: every one of
its lines is newline-free and contains no occurrence of `sl`. -/
def RItem.passesB (sl : Chars) : RItem → Bool
  | .plain l => freeOf '\n' l && !(containsSub sl l)
  | .reg s b e =>
    (freeOf '\n' s && !(containsSub sl s)) &&
    (b.all fun l => freeOf '\n' l && !(containsSub sl l)) &&
    (freeOf '\n' e && !(containsSub sl e))

/-- The item is a well-formed region for the `(sl, el)` matcher: its start
line begins with `sl`, its interior lines are clean of the end literal,
and its end line begins with `el`. -/
def RItem.matchesB (sl el : Chars) : RItem → Bool
  | .plain _ => false
  | .reg s b e =>
    (sl.isPrefixOf s && freeOf '\n' s) &&
    (b.all fun l => freeOf '\n' l && !(containsSub el l)) &&
    (el.isPrefixOf e && freeOf '\n' e)

theorem renderItems_append (xs ys : List RItem) :
    (((xs ++ ys).map RItem.lines).flatten) =
      ((xs.map RItem.lines).flatten) ++ ((ys.map RItem.lines).flatten) := by
  simp

theorem RItem.lines_ne_nil (it : RItem) : it.lines ≠ [] := by
  cases it <;> simp [RItem.lines]

theorem flatten_lines_ne_nil (its : List RItem) (l : Chars) :
    ((its ++ [RItem.plain l]).map RItem.lines).flatten ≠ [] := by
  rw [renderItems_append]
  simp [RItem.lines]

/-- A complete region match: on text that starts with a well-formed region
followed by more lines, the pattern consumes exactly the region and its
trailing newline. -/
theorem matchRegionAt_region {sl el : Chars} (hsl : sl ≠ []) (hel : el ≠ [])
    (helnl : freeOf '\n' el = true)
    {s : Chars} {b : List Chars} {e : Chars}
    (hs : sl.isPrefixOf s = true) (hsnl : freeOf '\n' s = true)
    (hb : ∀ l ∈ b, freeOf '\n' l = true ∧ containsSub el l = false)
    (he : el.isPrefixOf e = true) (henl : freeOf '\n' e = true)
    (F : List Chars) (hF : F ≠ []) :
    matchRegionAt sl el (joinNl ((s :: b ++ [e]) ++ F)) = some (joinNl F) := by
  have hslen : sl.length ≤ s.length := (List.isPrefixOf_iff_prefix.mp hs).length_le
  have htail : (b ++ [e]) ++ F ≠ [] := by simp
  have hrender : joinNl ((s :: b ++ [e]) ++ F) =
      s ++ '\n' :: joinNl (b ++ e :: F) := by
    rw [show (s :: b ++ [e]) ++ F = s :: ((b ++ [e]) ++ F) by simp,
        joinNl_cons s ((b ++ [e]) ++ F) htail]
    congr 2
    simp
  rw [hrender]
  simp only [matchRegionAt]
  have hpre : sl.isPrefixOf (s ++ '\n' :: joinNl (b ++ e :: F)) = true := by
    exact List.isPrefixOf_iff_prefix.mpr
      ((List.isPrefixOf_iff_prefix.mp hs).trans (List.prefix_append _ _))
  rw [if_pos hpre]
  rw [List.drop_append_of_le_length hslen]
  rw [afterFirstNl_append _ (freeOf_drop '\n' sl.length hsnl)]
  obtain ⟨etail, hetail⟩ := List.isPrefixOf_iff_prefix.mp he
  have hafs : afterFirstSub el (joinNl (b ++ e :: F)) =
      some (etail ++ '\n' :: joinNl F) := by
    have hbase : afterFirstSub el (joinNl (e :: F)) =
        some (etail ++ '\n' :: joinNl F) := by
      rw [joinNl_cons e F hF, ← hetail, List.append_assoc]
      exact afterFirstSub_self _ hel
    cases b with
    | nil => simpa using hbase
    | cons l b' =>
      rw [(afterFirstSub_skip_clean_lines hel helnl (l :: b') e hb).2 F hF]
      exact hbase
  have hetnl : freeOf '\n' etail = true := by
    have h5 := henl
    rw [← hetail, freeOf_append, Bool.and_eq_true] at h5
    exact h5.2
  simp only [hafs]
  rw [skipRestOfLine_append _ hetnl]

/-- Wellformedness dichotomy used by the structured-scan theorem. -/
def RItem.okB (sl el : Chars) (it : RItem) : Bool :=
  it.matchesB sl el || it.passesB sl

/-- Main structured-scan theorem: on a rendering of plain lines and
well-formed regions ending in a transparent plain line, the scanner
removes exactly the matching regions (counting them) and keeps every
other line byte-identical. -/
theorem removeScan_renderItems {sl el : Chars} (hsl : sl ≠ []) (hel : el ≠ [])
    (hslnl : freeOf '\n' sl = true) (helnl : freeOf '\n' el = true) :
    ∀ (its : List RItem) (last : Chars),
      freeOf '\n' last = true → containsSub sl last = false →
      (∀ it ∈ its, RItem.okB sl el it = true) →
      removeScan sl el (renderItems (its ++ [.plain last])) =
        ((its.filter (RItem.matchesB sl el)).length,
         renderItems (its.filter (fun it => !RItem.matchesB sl el it) ++ [.plain last])) := by
  intro its
  induction its with
  | nil =>
    intro last hlast1 hlast2 _
    have h1 : renderItems [RItem.plain last] = last := by
      simp [renderItems, RItem.lines, joinNl_single]
    simp only [List.nil_append, List.filter_nil, h1]
    rw [removeScan_of_nlFree hsl hel hlast1]
    simp [List.length_nil]
  | cons it its' ih =>
    intro last hlast1 hlast2 hok
    have hokit := hok it (by simp)
    have hokrest : ∀ x ∈ its', RItem.okB sl el x = true :=
      fun x hx => hok x (by simp [hx])
    have hihr := ih last hlast1 hlast2 hokrest
    rw [show renderItems (its' ++ [RItem.plain last]) =
      joinNl (List.map RItem.lines (its' ++ [RItem.plain last])).flatten from rfl] at hihr
    have hflatne : (List.map RItem.lines (its' ++ [RItem.plain last])).flatten ≠ [] :=
      flatten_lines_ne_nil its' last
    cases hm : RItem.matchesB sl el it with
    | true =>
      cases it with
      | plain l => simp [RItem.matchesB] at hm
      | reg s b e =>
        have hm' := hm
        simp only [RItem.matchesB, Bool.and_eq_true, List.all_eq_true] at hm'
        obtain ⟨⟨⟨hm1, hm2⟩, hm3⟩, hm4, hm5⟩ := hm'
        have hbclean : ∀ l ∈ b, freeOf '\n' l = true ∧ containsSub el l = false := by
          intro l hl
          obtain ⟨ha, hb2⟩ := hm3 l hl
          exact ⟨ha, by simpa using hb2⟩
        have hmatch := matchRegionAt_region hsl hel helnl hm1 hm2 hbclean hm4 hm5
          ((List.map RItem.lines (its' ++ [RItem.plain last])).flatten) hflatne
        have hrender : renderItems ((RItem.reg s b e :: its') ++ [RItem.plain last]) =
            joinNl ((s :: b ++ [e]) ++
              (List.map RItem.lines (its' ++ [RItem.plain last])).flatten) := by
          simp [renderItems, RItem.lines]
        have hsne : s ≠ [] := by
          cases s with
          | nil =>
            cases sl with
            | nil => exact absurd rfl hsl
            | cons p pr => simp [List.isPrefixOf] at hm1
          | cons c cs => simp
        obtain ⟨c, cs, hc⟩ := List.exists_cons_of_ne_nil hsne
        have hshape : joinNl ((s :: b ++ [e]) ++
            (List.map RItem.lines (its' ++ [RItem.plain last])).flatten) =
            c :: (cs ++ '\n' :: joinNl ((b ++ [e]) ++
              (List.map RItem.lines (its' ++ [RItem.plain last])).flatten)) := by
          rw [show (s :: b ++ [e]) ++ _ = s :: ((b ++ [e]) ++
            (List.map RItem.lines (its' ++ [RItem.plain last])).flatten) by simp]
          rw [joinNl_cons s _ (by simp), hc]
          simp
        have hmatch' : matchRegionAt sl el
            (c :: (cs ++ '\n' :: joinNl ((b ++ [e]) ++
              (List.map RItem.lines (its' ++ [RItem.plain last])).flatten))) =
            some (joinNl (List.map RItem.lines (its' ++ [RItem.plain last])).flatten) := by
          rw [← hshape]
          exact hmatch
        rw [hrender, hshape, removeScan_cons_match hsl hel hmatch', hihr]
        have hfilter1 : List.filter (RItem.matchesB sl el) (RItem.reg s b e :: its') =
            RItem.reg s b e :: List.filter (RItem.matchesB sl el) its' := by
          simp [List.filter_cons, hm]
        have hfilter2 : List.filter (fun x => !RItem.matchesB sl el x)
            (RItem.reg s b e :: its') =
            List.filter (fun x => !RItem.matchesB sl el x) its' := by
          simp [List.filter_cons, hm]
        rw [hfilter1, hfilter2]
        simp
    | false =>
      have hpass : RItem.passesB sl it = true := by
        have h0 := hokit
        rw [RItem.okB, hm, Bool.false_or] at h0
        exact h0
      have hlinesclean : ∀ l ∈ it.lines, freeOf '\n' l = true ∧
          containsSub sl l = false := by
        cases it with
        | plain l =>
          have hp' := hpass
          simp only [RItem.passesB, Bool.and_eq_true] at hp'
          intro x hx
          simp only [RItem.lines, List.mem_singleton] at hx
          subst hx
          exact ⟨hp'.1, by simpa using hp'.2⟩
        | reg s b e =>
          have hp' := hpass
          simp only [RItem.passesB, Bool.and_eq_true, List.all_eq_true] at hp'
          obtain ⟨⟨⟨h1, h2⟩, h3⟩, h4, h5⟩ := hp'
          intro x hx
          simp only [RItem.lines, List.mem_cons, List.mem_append,
            List.mem_singleton] at hx
          rcases hx with (hx | hx) | (hx | hx)
          · subst hx; exact ⟨h1, by simpa using h2⟩
          · obtain ⟨ha, hb2⟩ := h3 x hx
            exact ⟨ha, by simpa using hb2⟩
          · subst hx; exact ⟨h4, by simpa using h5⟩
          · exact absurd hx (List.not_mem_nil x)
      have hrender : renderItems ((it :: its') ++ [RItem.plain last]) =
          joinNl it.lines ++ '\n' ::
            joinNl (List.map RItem.lines (its' ++ [RItem.plain last])).flatten := by
        simp only [renderItems, List.cons_append, List.map_cons, List.flatten_cons]
        exact joinNl_append it.lines _ (RItem.lines_ne_nil it) hflatne
      rw [hrender, removeScan_skip_lines hsl hel hslnl it.lines _ hlinesclean, hihr]
      have hrender2 : renderItems ((it :: its'.filter (fun x => !RItem.matchesB sl el x)) ++
          [RItem.plain last]) =
          joinNl it.lines ++ '\n' ::
            joinNl (List.map RItem.lines
              (its'.filter (fun x => !RItem.matchesB sl el x) ++
                [RItem.plain last])).flatten := by
        simp only [renderItems, List.cons_append, List.map_cons, List.flatten_cons]
        exact joinNl_append it.lines _ (RItem.lines_ne_nil it)
          (flatten_lines_ne_nil _ last)
      have hfilter1 : List.filter (RItem.matchesB sl el) (it :: its') =
          List.filter (RItem.matchesB sl el) its' := by
        simp [List.filter_cons, hm]
      have hfilter2 : List.filter (fun x => !RItem.matchesB sl el x) (it :: its') =
          it :: List.filter (fun x => !RItem.matchesB sl el x) its' := by
        simp [List.filter_cons, hm]
      rw [hfilter1, hfilter2]
      rw [show renderItems ((it :: its'.filter (fun x => !RItem.matchesB sl el x)) ++
          [RItem.plain last]) =
          joinNl it.lines ++ '\n' ::
            joinNl (List.map RItem.lines
              (its'.filter (fun x => !RItem.matchesB sl el x) ++
                [RItem.plain last])).flatten from hrender2]
      rfl

theorem joinNl_not_contains {sl : Chars} (hsl : sl ≠ [])
    (hslnl : freeOf '\n' sl = true) :
    ∀ (ls : List Chars),
      (∀ l ∈ ls, freeOf '\n' l = true ∧ containsSub sl l = false) →
      containsSub sl (joinNl ls) = false := by
  intro ls
  induction ls with
  | nil =>
    intro _
    rw [joinNl_nil, containsSub_nil]
    cases sl with
    | nil => exact absurd rfl hsl
    | cons p pr => rfl
  | cons l ls' ih =>
    intro hls
    cases hls' : ls' with
    | nil => rw [joinNl_single]; exact (hls l (by simp)).2
    | cons x xs =>
      rw [← hls']
      have hne : ls' ≠ [] := by simp [hls']
      rw [joinNl_cons l ls' hne]
      rw [Bool.eq_false_iff]
      intro hcon
      rcases (containsSub_append_nl l (joinNl ls') hsl hslnl).mp hcon with h | h
      · rw [(hls l (by simp)).2] at h; cases h
      · rw [ih (fun y hy => hls y (by simp [hy]))] at h; cases h

/-! ### The instrumenter (src/instrumenter.ts)

Everything from here on lives in the `AD` namespace to avoid clashing
with Mathlib names such as `Language`. -/

namespace AD

inductive Language : Type where
  | javascript
  | typescript
  | python
deriving DecidableEq

structure Instrument : Type where
  id : Chars
  file : Chars
  line : Nat
  language : Language
  capture : List Chars
  createdAt : Nat
deriving DecidableEq

/-- `const REGION_PREFIX = 'claude-debug'`. -/
def REGION_PREFIX : Chars := "claude-debug".data

/-- Decimal rendering of a natural number, as JavaScript template
interpolation renders `${port}` and `${line}`. -/
def digitChar (d : Nat) : Char :=
  match d with
  | 0 => '0' | 1 => '1' | 2 => '2' | 3 => '3' | 4 => '4'
  | 5 => '5' | 6 => '6' | 7 => '7' | 8 => '8' | _ => '9'

def natCharsF : Nat → Nat → Chars
  | 0, _ => []
  | f+1, n => if n < 10 then [digitChar n] else natCharsF f (n / 10) ++ [digitChar (n % 10)]

def natChars (n : Nat) : Chars := natCharsF (n + 1) n

/-- Model of JavaScript `array.join(sep)` on character lists. -/
def joinSep (sep : Chars) : List Chars → Chars
  | [] => []
  | x :: xs => x ++ if xs.isEmpty then [] else sep ++ joinSep sep xs

namespace Instrumenter

/-- The `dataObj` template of `generateJSInstrument`. -/
def jsDataObj (capture : List Chars) : Chars :=
  if capture.length > 0 then
    "\x7b ".data ++
      (joinSep ", ".data (capture.map (fun v =>
        v ++ ": typeof ".data ++ v ++ " !== \x27undefined\x27 ? ".data ++ v ++
          " : undefined".data))) ++ " \x7d".data
  else "\x7b\x7d".data

/-- The lines of the JS/TS instrument template (the template literal in
`generateJSInstrument`, split at its newlines). -/
def jsInstrumentLines (port : Nat) (i : Instrument) : List Chars :=
  [ "// #region ".data ++ REGION_PREFIX ++ "-".data ++ i.id,
    "fetch(\x27http://localhost:".data ++ natChars port ++ "/log\x27, \x7b".data,
    "  method: \x27POST\x27,".data,
    "  headers: \x7b \x27Content-Type\x27: \x27application/json\x27 \x7d,".data,
    "  body: JSON.stringify(\x7b".data,
    "    id: \x27".data ++ i.id ++ "\x27,".data,
    "    location: \x27".data ++ i.file ++ ":".data ++ natChars i.line ++ "\x27,".data,
    "    timestamp: Date.now(),".data,
    "    data: ".data ++ jsDataObj i.capture,
    "  \x7d)".data,
    "\x7d).catch(() => \x7b\x7d);".data,
    "// #endregion ".data ++ REGION_PREFIX ++ "-".data ++ i.id ]

def generateJSInstrument (port : Nat) (i : Instrument) : Chars :=
  joinNl (jsInstrumentLines port i)

/-- The `dataDict` template of `generatePythonInstrument`. -/
def pyDataDict (capture : List Chars) : Chars :=
  if capture.length > 0 then
    "\x7b ".data ++
      (joinSep ", ".data (capture.map (fun v =>
        "\x27".data ++ v ++ "\x27: ".data ++ v ++ " if \x27".data ++ v ++
          "\x27 in dir() else None".data))) ++ " \x7d".data
  else "\x7b\x7d".data

/-- The lines of the Python instrument template. -/
def pyInstrumentLines (port : Nat) (i : Instrument) : List Chars :=
  [ "# region ".data ++ REGION_PREFIX ++ "-".data ++ i.id,
    "try:".data,
    "    import urllib.request as __dbg_req, json as __dbg_json".data,
    "    __dbg_req.urlopen(__dbg_req.Request(".data,
    "        \x27http://localhost:".data ++ natChars port ++ "/log\x27,".data,
    "        data=__dbg_json.dumps(\x7b".data,
    "            \x27id\x27: \x27".data ++ i.id ++ "\x27,".data,
    "            \x27location\x27: \x27".data ++ i.file ++ ":".data ++
      natChars i.line ++ "\x27,".data,
    "            \x27timestamp\x27: __import__(\x27time\x27).time(),".data,
    "            \x27data\x27: ".data ++ pyDataDict i.capture,
    "        \x7d).encode(),".data,
    "        headers=\x7b\x27Content-Type\x27: \x27application/json\x27\x7d".data,
    "    ))".data,
    "except: pass".data,
    "# endregion ".data ++ REGION_PREFIX ++ "-".data ++ i.id ]

def generatePythonInstrument (port : Nat) (i : Instrument) : Chars :=
  joinNl (pyInstrumentLines port i)

/-- `generateInstrumentCode`: JS/TS use the JS template, Python the Python
template; the TypeScript `default` arm also returns the JS template, and
`Language` covers exactly the three values `detectLanguage` can produce. -/
def generateInstrumentCode (port : Nat) (i : Instrument) : Chars :=
  match i.language with
  | .javascript => generateJSInstrument port i
  | .typescript => generateJSInstrument port i
  | .python => generatePythonInstrument port i

/-- Start literal of the exact-identifier removal pattern for a dialect. -/
def startLitFor (regionId : Chars) (language : Language) : Chars :=
  if language = .python then "# region ".data ++ regionId
  else "// #region ".data ++ regionId

/-- End literal of the removal pattern for a dialect. -/
def endLitFor (language : Language) : Chars :=
  if language = .python then "# endregion".data else "// #endregion".data

/-- `removeRegion`: strip every region matching
`(// #region|# region) <regionId>[^\n]*\n[\s\S]*?(// #endregion|# endregion)[^\n]*\n?`
from the content (global replace with the empty string). -/
def removeRegion (content regionId : Chars) (language : Language) : Chars :=
  (removeScan (startLitFor regionId language) (endLitFor language) content).2

end Instrumenter

/-! ### The filesystem model

`files` maps absolute paths to contents; `writable` tells whether
`writeFileSync` on the path succeeds or throws (e.g. `EACCES`). Missing
files are handled by the code through `existsSync`, write failures surface
as thrown exceptions. -/

structure FS : Type where
  files : Chars → Option Chars
  writable : Chars → Bool

def FS.writeFile (fs : FS) (p content : Chars) : Except Chars FS :=
  if fs.writable p then
    .ok { fs with files := fun q => if q = p then some content else fs.files q }
  else
    .error ("EACCES: permission denied, open ".data ++ p)

namespace Instrumenter

/-- `Instrumenter.addInstrument` acting on the filesystem: validate
existence, split into lines, validate the 1-indexed line against
`[1, lineCount+1]`, splice in the generated block's lines before index
`line - 1`, rejoin and write back. -/
def addInstrument (port : Nat) (i : Instrument) (fs : FS) : Except Chars FS :=
  match fs.files i.file with
  | none => .error ("File not found: ".data ++ i.file)
  | some content =>
    let lines := splitNl content
    if i.line < 1 || i.line > lines.length + 1 then
      .error ("Line ".data ++ natChars i.line ++ " is out of range".data)
    else
      let code := generateInstrumentCode port i
      let codeLines := splitNl code
      fs.writeFile i.file
        (joinNl (lines.take (i.line - 1) ++ codeLines ++ lines.drop (i.line - 1)))

/-- `Instrumenter.removeInstrument`: missing file reports `false` (no
error); otherwise run `removeRegion` for `claude-debug-<id>` and write
back only when the content changed, reporting whether a write happened. -/
def removeInstrument (i : Instrument) (fs : FS) : Except Chars (FS × Bool) :=
  match fs.files i.file with
  | none => .ok (fs, false)
  | some content =>
    let regionId := REGION_PREFIX ++ "-".data ++ i.id
    let newContent := removeRegion content regionId i.language
    if newContent ≠ content then
      match fs.writeFile i.file newContent with
      | .ok fs' => .ok (fs', true)
      | .error e => .error e
    else .ok (fs, false)

/-- `Instrumenter.removeAllInstrumentsFromFile`: try the JS wildcard
pattern then the Python wildcard pattern on the result, count matches of
both, write back when anything matched, and return the count. -/
def removeAllInstrumentsFromFile (file : Chars) (fs : FS) : Except Chars (FS × Nat) :=
  match fs.files file with
  | none => .ok (fs, 0)
  | some content =>
    let p1 := removeScan ("// #region ".data ++ REGION_PREFIX ++ "-".data)
      "// #endregion".data content
    let p2 := removeScan ("# region ".data ++ REGION_PREFIX ++ "-".data)
      "# endregion".data p1.2
    let count := p1.1 + p2.1
    if count > 0 then
      match fs.writeFile file p2.2 with
      | .ok fs' => .ok (fs', count)
      | .error e => .error e
    else .ok (fs, 0)

end Instrumenter


/-! ### Character cleanliness of generated code -/

theorem joinSep_single (sep x : Chars) : joinSep sep [x] = x := by
  simp [joinSep]

theorem joinSep_cons₂ (sep x y : Chars) (ys : List Chars) :
    joinSep sep (x :: y :: ys) = x ++ sep ++ joinSep sep (y :: ys) := by
  simp [joinSep]

theorem freeOf_joinSep (c : Char) (sep : Chars) (hsep : freeOf c sep = true) :
    ∀ xs : List Chars, (∀ x ∈ xs, freeOf c x = true) →
      freeOf c (joinSep sep xs) = true := by
  intro xs
  induction xs with
  | nil => intro _; simp [joinSep, freeOf]
  | cons x xs' ih =>
    intro hxs
    cases xs' with
    | nil =>
      rw [joinSep_single]
      exact hxs x (by simp)
    | cons y ys =>
      rw [joinSep_cons₂, freeOf_append, freeOf_append]
      rw [hxs x (by simp), hsep, ih (fun z hz => hxs z (by simp [hz]))]
      rfl

theorem digitChar_ne_hash (d : Nat) : ¬('#' = digitChar d) := by
  rcases d with _|_|_|_|_|_|_|_|_|d <;> simp [digitChar]

theorem digitChar_ne_nl (d : Nat) : ¬('\n' = digitChar d) := by
  rcases d with _|_|_|_|_|_|_|_|_|d <;> simp [digitChar]

theorem natCharsF_freeOf (c : Char) (hc : ∀ d, ¬(c = digitChar d)) :
    ∀ f n, freeOf c (natCharsF f n) = true := by
  intro f
  induction f with
  | zero => intro n; simp [natCharsF, freeOf]
  | succ f ih =>
    intro n
    simp only [natCharsF]
    split
    · rw [freeOf_cons]
      simp only [freeOf, List.contains_nil, Bool.not_false, Bool.and_true]
      simpa using hc n
    · rw [freeOf_append, ih (n / 10), freeOf_cons]
      simp only [freeOf, List.contains_nil, Bool.not_false, Bool.and_true,
        Bool.true_and]
      simpa using hc (n % 10)

theorem natChars_freeOf_hash (n : Nat) : freeOf '#' (natChars n) = true :=
  natCharsF_freeOf '#' digitChar_ne_hash (n + 1) n

theorem natChars_freeOf_nl (n : Nat) : freeOf '\n' (natChars n) = true :=
  natCharsF_freeOf '\n' digitChar_ne_nl (n + 1) n


/-- The cleanliness condition on instrument fields under which the region
machinery round-trips: the identifier, the absolute path and the capture
names contain neither `#` nor a newline.  Every identifier the session
manager generates (`dbg-` + hex) satisfies it; paths and capture names in
ordinary use do as well. -/
def Instrument.cleanB (i : Instrument) : Bool :=
  freeOf '#' i.id && freeOf '\n' i.id &&
  freeOf '#' i.file && freeOf '\n' i.file &&
  i.capture.all (fun v => freeOf '#' v && freeOf '\n' v)

theorem Instrument.cleanB_spec {i : Instrument} (h : i.cleanB = true) :
    freeOf '#' i.id = true ∧ freeOf '\n' i.id = true ∧
    freeOf '#' i.file = true ∧ freeOf '\n' i.file = true ∧
    (∀ v ∈ i.capture, freeOf '#' v = true ∧ freeOf '\n' v = true) := by
  simp only [Instrument.cleanB, Bool.and_eq_true, List.all_eq_true] at h
  obtain ⟨⟨⟨⟨h1, h2⟩, h3⟩, h4⟩, h5⟩ := h
  refine ⟨h1, h2, h3, h4, fun v hv => ?_⟩
  exact h5 v hv

theorem Instrumenter.jsDataObj_clean {c : Char} (hc : c = '#' ∨ c = '\n')
    (capture : List Chars) (hcap : ∀ v ∈ capture, freeOf c v = true) :
    freeOf c (Instrumenter.jsDataObj capture) = true := by
  rcases hc with rfl | rfl
  all_goals
    simp only [Instrumenter.jsDataObj]
    split
    · simp only [freeOf_append, Bool.and_eq_true]
      refine ⟨⟨by decide, ?_⟩, by decide⟩
      apply freeOf_joinSep _ _ (by decide)
      intro x hx
      obtain ⟨v, hv, rfl⟩ := List.mem_map.mp hx
      simp only [freeOf_append, hcap v hv, Bool.true_and, Bool.and_true]
      decide
    · decide

theorem Instrumenter.pyDataDict_clean {c : Char} (hc : c = '#' ∨ c = '\n')
    (capture : List Chars) (hcap : ∀ v ∈ capture, freeOf c v = true) :
    freeOf c (Instrumenter.pyDataDict capture) = true := by
  rcases hc with rfl | rfl
  all_goals
    simp only [Instrumenter.pyDataDict]
    split
    · simp only [freeOf_append, Bool.and_eq_true]
      refine ⟨⟨by decide, ?_⟩, by decide⟩
      apply freeOf_joinSep _ _ (by decide)
      intro x hx
      obtain ⟨v, hv, rfl⟩ := List.mem_map.mp hx
      simp only [freeOf_append, hcap v hv, Bool.true_and, Bool.and_true]
      decide
    · decide


/-! ### Marker-line analysis

Both dialects' markers contain `#`; generated code bodies are `#`-free
when instrument fields are clean, so every occurrence question reduces to
single-`#` line analysis. -/

theorem not_containsSub_of_freeOf {c : Char} {pat l : Chars} (hc : c ∈ pat)
    (hl : freeOf c l = true) : containsSub pat l = false := by
  rw [Bool.eq_false_iff]
  intro h
  obtain ⟨x, y, rfl⟩ := (containsSub_iff_exists pat _).mp h
  exact (freeOf_iff c _).mp hl (by simp [hc])

/-- In a list with a unique `#`, a decomposition at a `#` is unique. -/
theorem hash_split_unique {A B : Chars} (hA : freeOf '#' A = true)
    (hB : freeOf '#' B = true) :
    ∀ u v : Chars, A ++ '#' :: B = u ++ '#' :: v → u = A ∧ v = B := by
  induction A with
  | nil =>
    intro u v h
    cases u with
    | nil =>
      rw [List.nil_append, List.nil_append] at h
      injection h with h1 h2
      exact ⟨rfl, h2.symm⟩
    | cons c u' =>
      rw [List.nil_append, List.cons_append] at h
      injection h with h1 h2
      exfalso
      exact (freeOf_iff '#' B).mp hB (by simp [h2, h1])
  | cons a A' ih =>
    intro u v h
    cases u with
    | nil =>
      rw [List.nil_append, List.cons_append] at h
      injection h with h1 h2
      exfalso
      exact (freeOf_iff '#' (a :: A')).mp hA (by simp [h1])
    | cons c u' =>
      rw [List.cons_append, List.cons_append] at h
      injection h with h1 h2
      have hA' : freeOf '#' A' = true := (freeOf_head_ne hA).2
      obtain ⟨hu, hv⟩ := ih hA' u' v h2
      exact ⟨by rw [hu, h1], hv⟩

/-- A line of the form `#`-then-hash-free cannot contain any pattern of
the form `// #...` (the `#` of the pattern cannot land anywhere). -/
theorem hashline_no_slashhash {Y t : Chars} (ht : freeOf '#' t = true) :
    containsSub ("// #".data ++ Y) ('#' :: t) = false := by
  rw [Bool.eq_false_iff]
  intro h
  obtain ⟨x, y, hxy⟩ := (containsSub_iff_exists _ _).mp h
  have hxy2 : '#' :: t = (x ++ "// ".data) ++ '#' :: (Y ++ y) := by
    rw [hxy]
    simp
  cases x with
  | nil =>
    rw [List.nil_append] at hxy2
    have : '#' :: t = '/' :: ("/ ".data ++ '#' :: (Y ++ y)) := hxy2
    injection this with h1 _
    exact absurd h1 (by decide)
  | cons c x' =>
    rw [List.cons_append] at hxy2
    injection hxy2 with h1 h2
    apply (freeOf_iff '#' t).mp ht
    rw [h2]
    simp

/-- A line of the form `// ` + `#` + hash-free cannot contain a pattern
`#' :: ' ' :: ...` whose post-`#` text disagrees with the line's. -/
theorem slashline_no_hashpat {P m : Chars} (hm : freeOf '#' m = true)
    (hdis : ∀ y, P ++ y ≠ m) :
    containsSub ('#' :: P) ("// ".data ++ '#' :: m) = false := by
  rw [Bool.eq_false_iff]
  intro h
  obtain ⟨x, y, hxy⟩ := (containsSub_iff_exists _ _).mp h
  have hxy2 : "// ".data ++ '#' :: m = x ++ '#' :: (P ++ y) := by
    rw [hxy]
    simp
  have hA : freeOf '#' ("// ".data : Chars) = true := by decide
  obtain ⟨hu, hv⟩ := hash_split_unique hA hm x (P ++ y) hxy2
  exact hdis y hv

/-! Marker shapes.  `jsSL Z`/`pySL Z` are the start literals of the JS and
Python patterns (`Z` is the identifier for the exact matcher, `[]` for the
wildcard); `jsEL`/`pyEL` the end literals. -/

def jsSL (Z : Chars) : Chars := "// #region claude-debug-".data ++ Z

def pySL (Z : Chars) : Chars := "# region claude-debug-".data ++ Z

def jsEL : Chars := "// #endregion".data

def pyEL : Chars := "# endregion".data

theorem jsSL_hash_form (Z : Chars) :
    jsSL Z = "// ".data ++ '#' :: ("region claude-debug-".data ++ Z) := by
  rw [jsSL, show ("// #region claude-debug-".data : Chars) =
    "// ".data ++ '#' :: "region claude-debug-".data from rfl]
  simp

theorem pySL_hash_form (Z : Chars) :
    pySL Z = '#' :: (" region claude-debug-".data ++ Z) := by
  rw [pySL, show ("# region claude-debug-".data : Chars) =
    '#' :: " region claude-debug-".data from rfl]
  simp

/-- Occurrence of an exact JS start literal inside a JS start-marker line
forces the sought identifier to be a prefix of the line's identifier. -/
theorem jsSL_occurrence_starts {id id' : Chars} (hid' : freeOf '#' id' = true)
    (h : containsSub (jsSL id) (jsSL id') = true) : id <+: id' := by
  obtain ⟨x, y, hxy⟩ := (containsSub_iff_exists _ _).mp h
  rw [jsSL_hash_form, jsSL_hash_form] at hxy
  have hB : freeOf '#' ("region claude-debug-".data ++ id') = true := by
    rw [freeOf_append, hid']
    decide
  have hxy2 : "// ".data ++ '#' :: ("region claude-debug-".data ++ id') =
      (x ++ "// ".data) ++ '#' :: (("region claude-debug-".data ++ id) ++ y) := by
    rw [hxy]
    simp
  have hA : freeOf '#' ("// ".data : Chars) = true := by decide
  obtain ⟨hu, hv⟩ := hash_split_unique hA hB _ _ hxy2
  rw [List.append_assoc] at hv
  have hv2 := List.append_cancel_left hv.symm
  exact ⟨y, hv2.symm⟩

/-- The JS end-marker line contains no JS start literal. -/
theorem jsEndLine_no_jsSL (id id' : Chars) (hid' : freeOf '#' id' = true) :
    containsSub (jsSL id) ("// #endregion claude-debug-".data ++ id') = false := by
  rw [Bool.eq_false_iff]
  intro h
  obtain ⟨x, y, hxy⟩ := (containsSub_iff_exists _ _).mp h
  rw [jsSL_hash_form] at hxy
  have hB : freeOf '#' ("endregion claude-debug-".data ++ id') = true := by
    rw [freeOf_append, hid']
    decide
  have hl : ("// #endregion claude-debug-".data ++ id' : Chars) =
      "// ".data ++ '#' :: ("endregion claude-debug-".data ++ id') := by
    rw [show ("// #endregion claude-debug-".data : Chars) =
      "// ".data ++ '#' :: "endregion claude-debug-".data from rfl]
    simp
  have hxy2 : "// ".data ++ '#' :: ("endregion claude-debug-".data ++ id') =
      (x ++ "// ".data) ++ '#' :: (("region claude-debug-".data ++ id) ++ y) := by
    rw [← hl, hxy]
    simp
  have hA : freeOf '#' ("// ".data : Chars) = true := by decide
  obtain ⟨hu, hv⟩ := hash_split_unique hA hB _ _ hxy2
  have h3 := hv.symm
  rw [show ("endregion claude-debug-".data : Chars) =
    'e' :: "ndregion claude-debug-".data from rfl,
    show ("region claude-debug-".data : Chars) =
    'r' :: "egion claude-debug-".data from rfl] at h3
  rw [List.cons_append, List.cons_append] at h3
  injection h3 with h4 _
  exact absurd h4 (by decide)

/-- Occurrence of an exact Python start literal inside a Python
start-marker line forces identifier prefixing. -/
theorem pySL_occurrence_starts {id id' : Chars} (hid' : freeOf '#' id' = true)
    (h : containsSub (pySL id) (pySL id') = true) : id <+: id' := by
  obtain ⟨x, y, hxy⟩ := (containsSub_iff_exists _ _).mp h
  rw [pySL_hash_form, pySL_hash_form] at hxy
  have hB : freeOf '#' (" region claude-debug-".data ++ id') = true := by
    rw [freeOf_append, hid']
    decide
  have hxy2 : ([] : Chars) ++ '#' :: (" region claude-debug-".data ++ id') =
      x ++ '#' :: ((" region claude-debug-".data ++ id) ++ y) := by
    rw [List.nil_append, hxy]
    simp
  have hA : freeOf '#' ([] : Chars) = true := by decide
  obtain ⟨hu, hv⟩ := hash_split_unique hA hB _ _ hxy2
  rw [List.append_assoc] at hv
  have hv2 := List.append_cancel_left hv.symm
  exact ⟨y, hv2.symm⟩

/-- The Python end-marker line contains no Python start literal. -/
theorem pyEndLine_no_pySL (id id' : Chars) (hid' : freeOf '#' id' = true) :
    containsSub (pySL id) ("# endregion claude-debug-".data ++ id') = false := by
  rw [Bool.eq_false_iff]
  intro h
  obtain ⟨x, y, hxy⟩ := (containsSub_iff_exists _ _).mp h
  rw [pySL_hash_form] at hxy
  have hB : freeOf '#' (" endregion claude-debug-".data ++ id') = true := by
    rw [freeOf_append, hid']
    decide
  have hl : ("# endregion claude-debug-".data ++ id' : Chars) =
      ([] : Chars) ++ '#' :: (" endregion claude-debug-".data ++ id') := by
    rw [show ("# endregion claude-debug-".data : Chars) =
      '#' :: " endregion claude-debug-".data from rfl]
    simp
  have hxy2 : ([] : Chars) ++ '#' :: (" endregion claude-debug-".data ++ id') =
      x ++ '#' :: ((" region claude-debug-".data ++ id) ++ y) := by
    rw [← hl, hxy]
    simp
  have hA : freeOf '#' ([] : Chars) = true := by decide
  obtain ⟨hu, hv⟩ := hash_split_unique hA hB _ _ hxy2
  have h3 := hv.symm
  rw [show (" endregion claude-debug-".data : Chars) =
    ' ' :: 'e' :: "ndregion claude-debug-".data from rfl,
    show (" region claude-debug-".data : Chars) =
    ' ' :: 'r' :: "egion claude-debug-".data from rfl] at h3
  rw [List.cons_append, List.cons_append, List.cons_append, List.cons_append] at h3
  injection h3 with _ h4
  injection h4 with h5 _
  exact absurd h5 (by decide)

namespace Instrumenter

def jsStartLine (i : Instrument) : Chars :=
  "// #region ".data ++ REGION_PREFIX ++ "-".data ++ i.id

def jsEndLine (i : Instrument) : Chars :=
  "// #endregion ".data ++ REGION_PREFIX ++ "-".data ++ i.id

def jsBodyLines (port : Nat) (i : Instrument) : List Chars :=
  [ "fetch(\x27http://localhost:".data ++ natChars port ++ "/log\x27, \x7b".data,
    "  method: \x27POST\x27,".data,
    "  headers: \x7b \x27Content-Type\x27: \x27application/json\x27 \x7d,".data,
    "  body: JSON.stringify(\x7b".data,
    "    id: \x27".data ++ i.id ++ "\x27,".data,
    "    location: \x27".data ++ i.file ++ ":".data ++ natChars i.line ++ "\x27,".data,
    "    timestamp: Date.now(),".data,
    "    data: ".data ++ jsDataObj i.capture,
    "  \x7d)".data,
    "\x7d).catch(() => \x7b\x7d);".data ]

theorem jsInstrumentLines_decomp (port : Nat) (i : Instrument) :
    jsInstrumentLines port i = jsStartLine i :: jsBodyLines port i ++ [jsEndLine i] := rfl

theorem jsStartLine_eq (i : Instrument) : jsStartLine i = jsSL i.id := rfl

theorem jsEndLine_eq (i : Instrument) :
    jsEndLine i = "// #endregion claude-debug-".data ++ i.id := rfl

def pyStartLine (i : Instrument) : Chars :=
  "# region ".data ++ REGION_PREFIX ++ "-".data ++ i.id

def pyEndLine (i : Instrument) : Chars :=
  "# endregion ".data ++ REGION_PREFIX ++ "-".data ++ i.id

def pyBodyLines (port : Nat) (i : Instrument) : List Chars :=
  [ "try:".data,
    "    import urllib.request as __dbg_req, json as __dbg_json".data,
    "    __dbg_req.urlopen(__dbg_req.Request(".data,
    "        \x27http://localhost:".data ++ natChars port ++ "/log\x27,".data,
    "        data=__dbg_json.dumps(\x7b".data,
    "            \x27id\x27: \x27".data ++ i.id ++ "\x27,".data,
    "            \x27location\x27: \x27".data ++ i.file ++ ":".data ++
      natChars i.line ++ "\x27,".data,
    "            \x27timestamp\x27: __import__(\x27time\x27).time(),".data,
    "            \x27data\x27: ".data ++ pyDataDict i.capture,
    "        \x7d).encode(),".data,
    "        headers=\x7b\x27Content-Type\x27: \x27application/json\x27\x7d".data,
    "    ))".data,
    "except: pass".data ]

theorem pyInstrumentLines_decomp (port : Nat) (i : Instrument) :
    pyInstrumentLines port i = pyStartLine i :: pyBodyLines port i ++ [pyEndLine i] := rfl

theorem pyStartLine_eq (i : Instrument) : pyStartLine i = pySL i.id := rfl

theorem pyEndLine_eq (i : Instrument) :
    pyEndLine i = "# endregion claude-debug-".data ++ i.id := rfl

theorem jsBodyLines_clean {i : Instrument} (hc : i.cleanB = true) (port : Nat) :
    ∀ l ∈ jsBodyLines port i, freeOf '#' l = true ∧ freeOf '\n' l = true := by
  obtain ⟨hid1, hid2, hf1, hf2, hcap⟩ := Instrument.cleanB_spec hc
  have hdata1 : freeOf '#' (jsDataObj i.capture) = true :=
    jsDataObj_clean (Or.inl rfl) i.capture (fun v hv => (hcap v hv).1)
  have hdata2 : freeOf '\n' (jsDataObj i.capture) = true :=
    jsDataObj_clean (Or.inr rfl) i.capture (fun v hv => (hcap v hv).2)
  intro l hl
  simp only [jsBodyLines, List.mem_cons, List.not_mem_nil, or_false] at hl
  rcases hl with rfl|rfl|rfl|rfl|rfl|rfl|rfl|rfl|rfl|rfl
  all_goals constructor
  all_goals
    try simp only [freeOf_append, hid1, hid2, hf1, hf2, natChars_freeOf_hash,
      natChars_freeOf_nl, hdata1, hdata2, Bool.and_true, Bool.true_and]
  all_goals decide

theorem pyBodyLines_clean {i : Instrument} (hc : i.cleanB = true) (port : Nat) :
    ∀ l ∈ pyBodyLines port i, freeOf '#' l = true ∧ freeOf '\n' l = true := by
  obtain ⟨hid1, hid2, hf1, hf2, hcap⟩ := Instrument.cleanB_spec hc
  have hdata1 : freeOf '#' (pyDataDict i.capture) = true :=
    pyDataDict_clean (Or.inl rfl) i.capture (fun v hv => (hcap v hv).1)
  have hdata2 : freeOf '\n' (pyDataDict i.capture) = true :=
    pyDataDict_clean (Or.inr rfl) i.capture (fun v hv => (hcap v hv).2)
  intro l hl
  simp only [pyBodyLines, List.mem_cons, List.not_mem_nil, or_false] at hl
  rcases hl with rfl|rfl|rfl|rfl|rfl|rfl|rfl|rfl|rfl|rfl|rfl|rfl|rfl
  all_goals constructor
  all_goals
    try simp only [freeOf_append, hid1, hid2, hf1, hf2, natChars_freeOf_hash,
      natChars_freeOf_nl, hdata1, hdata2, Bool.and_true, Bool.true_and]
  all_goals decide

theorem jsStartLine_nlFree {i : Instrument} (h2 : freeOf '\n' i.id = true) :
    freeOf '\n' (jsStartLine i) = true := by
  rw [jsStartLine_eq, jsSL, freeOf_append, h2]
  decide

theorem jsEndLine_nlFree {i : Instrument} (h2 : freeOf '\n' i.id = true) :
    freeOf '\n' (jsEndLine i) = true := by
  rw [jsEndLine_eq, freeOf_append, h2]
  decide

theorem pyStartLine_nlFree {i : Instrument} (h2 : freeOf '\n' i.id = true) :
    freeOf '\n' (pyStartLine i) = true := by
  rw [pyStartLine_eq, pySL, freeOf_append, h2]
  decide

theorem pyEndLine_nlFree {i : Instrument} (h2 : freeOf '\n' i.id = true) :
    freeOf '\n' (pyEndLine i) = true := by
  rw [pyEndLine_eq, freeOf_append, h2]
  decide

/-- The structured item corresponding to one generated JS/TS region. -/
def jsRegionItem (port : Nat) (i : Instrument) : RItem :=
  .reg (jsStartLine i) (jsBodyLines port i) (jsEndLine i)

/-- The structured item corresponding to one generated Python region. -/
def pyRegionItem (port : Nat) (i : Instrument) : RItem :=
  .reg (pyStartLine i) (pyBodyLines port i) (pyEndLine i)

theorem jsRegionItem_lines (port : Nat) (i : Instrument) :
    (jsRegionItem port i).lines = jsInstrumentLines port i := rfl

theorem pyRegionItem_lines (port : Nat) (i : Instrument) :
    (pyRegionItem port i).lines = pyInstrumentLines port i := rfl

end Instrumenter

namespace Instrumenter

theorem jsRegionItem_matchesB {i : Instrument} (hc : i.cleanB = true) (port : Nat)
    (Z : Chars) (hZ : Z <+: i.id) :
    (jsRegionItem port i).matchesB (jsSL Z) jsEL = true := by
  obtain ⟨hid1, hid2, hf1, hf2, hcap⟩ := Instrument.cleanB_spec hc
  simp only [jsRegionItem, RItem.matchesB, Bool.and_eq_true, List.all_eq_true]
  refine ⟨⟨⟨?_, ?_⟩, ?_⟩, ?_, ?_⟩
  · rw [jsStartLine_eq]
    apply List.isPrefixOf_iff_prefix.mpr
    obtain ⟨t, ht⟩ := hZ
    exact ⟨t, by rw [jsSL, jsSL, List.append_assoc, ht]⟩
  · exact jsStartLine_nlFree hid2
  · intro l hl
    have hcl := jsBodyLines_clean hc port l hl
    have h3 : containsSub jsEL l = false :=
      not_containsSub_of_freeOf (show '#' ∈ jsEL by decide) hcl.1
    exact ⟨hcl.2, by rw [h3]; rfl⟩
  · rw [jsEndLine_eq]
    apply List.isPrefixOf_iff_prefix.mpr
    exact ⟨" claude-debug-".data ++ i.id, by rw [← List.append_assoc]; rfl⟩
  · exact jsEndLine_nlFree hid2

theorem pyRegionItem_matchesB {i : Instrument} (hc : i.cleanB = true) (port : Nat)
    (Z : Chars) (hZ : Z <+: i.id) :
    (pyRegionItem port i).matchesB (pySL Z) pyEL = true := by
  obtain ⟨hid1, hid2, hf1, hf2, hcap⟩ := Instrument.cleanB_spec hc
  simp only [pyRegionItem, RItem.matchesB, Bool.and_eq_true, List.all_eq_true]
  refine ⟨⟨⟨?_, ?_⟩, ?_⟩, ?_, ?_⟩
  · rw [pyStartLine_eq]
    apply List.isPrefixOf_iff_prefix.mpr
    obtain ⟨t, ht⟩ := hZ
    exact ⟨t, by rw [pySL, pySL, List.append_assoc, ht]⟩
  · exact pyStartLine_nlFree hid2
  · intro l hl
    have hcl := pyBodyLines_clean hc port l hl
    have h3 : containsSub pyEL l = false :=
      not_containsSub_of_freeOf (show '#' ∈ pyEL by decide) hcl.1
    exact ⟨hcl.2, by rw [h3]; rfl⟩
  · rw [pyEndLine_eq]
    apply List.isPrefixOf_iff_prefix.mpr
    exact ⟨" claude-debug-".data ++ i.id, by rw [← List.append_assoc]; rfl⟩
  · exact pyEndLine_nlFree hid2

/-- A generated JS region is transparent to any Python-pattern scan. -/
theorem jsRegionItem_passesB_py {i : Instrument} (hc : i.cleanB = true)
    (port : Nat) (Z : Chars) :
    (jsRegionItem port i).passesB (pySL Z) = true := by
  obtain ⟨hid1, hid2, hf1, hf2, hcap⟩ := Instrument.cleanB_spec hc
  simp only [jsRegionItem, RItem.passesB, Bool.and_eq_true, List.all_eq_true]
  have hmem : '#' ∈ pySL Z := by
    rw [pySL]
    simp only [List.mem_append]
    exact Or.inl (by decide)
  refine ⟨⟨⟨jsStartLine_nlFree hid2, ?_⟩, ?_⟩, jsEndLine_nlFree hid2, ?_⟩
  · -- start line
    have hform : jsStartLine i = "// ".data ++ '#' ::
        ("region claude-debug-".data ++ i.id) := by
      rw [jsStartLine_eq, jsSL_hash_form]
    rw [hform, pySL_hash_form]
    have hdis : ∀ y, ((" region claude-debug-".data ++ Z) ++ y ≠
        "region claude-debug-".data ++ i.id) := by
      intro y hy
      rw [show (" region claude-debug-".data : Chars) =
        ' ' :: "region claude-debug-".data from rfl] at hy
      rw [show ("region claude-debug-".data : Chars) =
        'r' :: "egion claude-debug-".data from rfl] at hy
      rw [List.cons_append, List.cons_append, List.cons_append] at hy
      injection hy with h5 _
      exact absurd h5 (by decide)
    have hmfree : freeOf '#' ("region claude-debug-".data ++ i.id) = true := by
      rw [freeOf_append, hid1]
      decide
    rw [slashline_no_hashpat hmfree hdis]
    rfl
  · intro l hl
    have hcl := jsBodyLines_clean hc port l hl
    have h3 : containsSub (pySL Z) l = false :=
      not_containsSub_of_freeOf hmem hcl.1
    exact ⟨hcl.2, by rw [h3]; rfl⟩
  · -- end line
    have hform : jsEndLine i = "// ".data ++ '#' ::
        ("endregion claude-debug-".data ++ i.id) := by
      rw [jsEndLine_eq]
      rw [show ("// #endregion claude-debug-".data : Chars) =
        "// ".data ++ '#' :: "endregion claude-debug-".data from rfl]
      simp
    rw [hform, pySL_hash_form]
    have hdis : ∀ y, ((" region claude-debug-".data ++ Z) ++ y ≠
        "endregion claude-debug-".data ++ i.id) := by
      intro y hy
      rw [show (" region claude-debug-".data : Chars) =
        ' ' :: "region claude-debug-".data from rfl] at hy
      rw [show ("endregion claude-debug-".data : Chars) =
        'e' :: "ndregion claude-debug-".data from rfl] at hy
      rw [List.cons_append, List.cons_append, List.cons_append] at hy
      injection hy with h5 _
      exact absurd h5 (by decide)
    have hmfree : freeOf '#' ("endregion claude-debug-".data ++ i.id) = true := by
      rw [freeOf_append, hid1]
      decide
    rw [slashline_no_hashpat hmfree hdis]
    rfl

/-- A generated Python region is transparent to any JS-pattern scan. -/
theorem pyRegionItem_passesB_js {i : Instrument} (hc : i.cleanB = true)
    (port : Nat) (Z : Chars) :
    (pyRegionItem port i).passesB (jsSL Z) = true := by
  obtain ⟨hid1, hid2, hf1, hf2, hcap⟩ := Instrument.cleanB_spec hc
  simp only [pyRegionItem, RItem.passesB, Bool.and_eq_true, List.all_eq_true]
  have hjs : jsSL Z = "// #".data ++ ("region claude-debug-".data ++ Z) := rfl
  refine ⟨⟨⟨pyStartLine_nlFree hid2, ?_⟩, ?_⟩, pyEndLine_nlFree hid2, ?_⟩
  · have hform : pyStartLine i = '#' :: (" region claude-debug-".data ++ i.id) := by
      rw [pyStartLine_eq, pySL_hash_form]
    rw [hform, hjs]
    have htfree : freeOf '#' (" region claude-debug-".data ++ i.id) = true := by
      rw [freeOf_append, hid1]
      decide
    rw [hashline_no_slashhash htfree]
    rfl
  · intro l hl
    have hcl := pyBodyLines_clean hc port l hl
    have h3 : containsSub (jsSL Z) l = false :=
      not_containsSub_of_freeOf (show '#' ∈ jsSL Z by
        rw [jsSL]
        simp only [List.mem_append]
        exact Or.inl (by decide)) hcl.1
    exact ⟨hcl.2, by rw [h3]; rfl⟩
  · have hform : pyEndLine i = '#' :: (" endregion claude-debug-".data ++ i.id) := by
      rw [pyEndLine_eq]
      rw [show ("# endregion claude-debug-".data : Chars) =
        '#' :: " endregion claude-debug-".data from rfl]
      simp
    rw [hform, hjs]
    have htfree : freeOf '#' (" endregion claude-debug-".data ++ i.id) = true := by
      rw [freeOf_append, hid1]
      decide
    rw [hashline_no_slashhash htfree]
    rfl

/-- A generated JS region whose identifier does not extend `Z` is
transparent to the exact JS scan for `Z`. -/
theorem jsRegionItem_passesB_js {i : Instrument} (hc : i.cleanB = true)
    (port : Nat) (Z : Chars) (hZ : ¬(Z <+: i.id)) :
    (jsRegionItem port i).passesB (jsSL Z) = true := by
  obtain ⟨hid1, hid2, hf1, hf2, hcap⟩ := Instrument.cleanB_spec hc
  simp only [jsRegionItem, RItem.passesB, Bool.and_eq_true, List.all_eq_true]
  refine ⟨⟨⟨jsStartLine_nlFree hid2, ?_⟩, ?_⟩, jsEndLine_nlFree hid2, ?_⟩
  · rw [jsStartLine_eq]
    rw [Bool.eq_false_iff.mpr (fun h => hZ (jsSL_occurrence_starts hid1 h))]
    rfl
  · intro l hl
    have hcl := jsBodyLines_clean hc port l hl
    have h3 : containsSub (jsSL Z) l = false :=
      not_containsSub_of_freeOf (show '#' ∈ jsSL Z by
        rw [jsSL]
        simp only [List.mem_append]
        exact Or.inl (by decide)) hcl.1
    exact ⟨hcl.2, by rw [h3]; rfl⟩
  · rw [jsEndLine_eq, jsEndLine_no_jsSL Z i.id hid1]
    rfl

/-- A generated Python region whose identifier does not extend `Z` is
transparent to the exact Python scan for `Z`. -/
theorem pyRegionItem_passesB_py {i : Instrument} (hc : i.cleanB = true)
    (port : Nat) (Z : Chars) (hZ : ¬(Z <+: i.id)) :
    (pyRegionItem port i).passesB (pySL Z) = true := by
  obtain ⟨hid1, hid2, hf1, hf2, hcap⟩ := Instrument.cleanB_spec hc
  simp only [pyRegionItem, RItem.passesB, Bool.and_eq_true, List.all_eq_true]
  have hmem : '#' ∈ pySL Z := by
    rw [pySL]
    simp only [List.mem_append]
    exact Or.inl (by decide)
  refine ⟨⟨⟨pyStartLine_nlFree hid2, ?_⟩, ?_⟩, pyEndLine_nlFree hid2, ?_⟩
  · rw [pyStartLine_eq]
    rw [Bool.eq_false_iff.mpr (fun h => hZ (pySL_occurrence_starts hid1 h))]
    rfl
  · intro l hl
    have hcl := pyBodyLines_clean hc port l hl
    have h3 : containsSub (pySL Z) l = false :=
      not_containsSub_of_freeOf hmem hcl.1
    exact ⟨hcl.2, by rw [h3]; rfl⟩
  · rw [pyEndLine_eq, pyEndLine_no_pySL Z i.id hid1]
    rfl

end Instrumenter

/-! ### JSON model

`Json` models the JavaScript values the log collector handles.  Numbers
are scaled decimals `m * 10^e` (JSON numeric literals parse exactly into
this form; the printed form is canonical rather than byte-identical to
V8's float printing, which no claim depends on).  `Json.parse` models
`JSON.parse` (whitespace, the seven value forms, string escapes including
`\uXXXX`, no trailing garbage, last duplicate key wins with first
position kept), `Json.stringify` models `JSON.stringify` (insertion
order, standard escapes). -/

inductive Json : Type where
  | null
  | bool (b : Bool)
  | num (m : Int) (e : Int)
  | str (s : Chars)
  | arr (xs : List Json)
  | obj (fields : List (Chars × Json))

/-- JS object key update: later assignment keeps the first position and
replaces the value (used both for duplicate keys in `JSON.parse` and for
`{ ...entry, receivedAt: t }`). -/
def assocSet {α : Type} : List (Chars × α) → Chars → α → List (Chars × α)
  | [], k, v => [(k, v)]
  | (k', v') :: rest, k, v =>
    if k' = k then (k', v) :: rest else (k', v') :: assocSet rest k v

def intChars (m : Int) : Chars :=
  if m < 0 then '-' :: natChars (-m).toNat else natChars m.toNat

def escapeChar (c : Char) : Chars :=
  if c = '"' then ['\\', '"']
  else if c = '\\' then ['\\', '\\']
  else if c = '\n' then ['\\', 'n']
  else if c = '\r' then ['\\', 'r']
  else if c = '\t' then ['\\', 't']
  else if c = '\x08' then ['\\', 'b']
  else if c = '\x0c' then ['\\', 'f']
  else [c]

def escapeChars (s : Chars) : Chars := (s.map escapeChar).flatten

mutual

def Json.stringify : Json → Chars
  | .null => "null".data
  | .bool true => "true".data
  | .bool false => "false".data
  | .num m e => intChars m ++ (if e = 0 then [] else 'e' :: intChars e)
  | .str s => '"' :: escapeChars s ++ ['"']
  | .arr xs => '[' :: Json.stringifyList xs ++ [']']
  | .obj fs => '\x7b' :: Json.stringifyFields fs ++ ['\x7d']

def Json.stringifyList : List Json → Chars
  | [] => []
  | x :: xs =>
    Json.stringify x ++ (if xs.isEmpty then [] else ',' :: Json.stringifyList xs)

def Json.stringifyFields : List (Chars × Json) → Chars
  | [] => []
  | (k, v) :: fs =>
    '"' :: escapeChars k ++ '"' :: ':' :: Json.stringify v ++
      (if fs.isEmpty then [] else ',' :: Json.stringifyFields fs)

end

def isWsB (c : Char) : Bool := c == ' ' || c == '\t' || c == '\n' || c == '\r'

def skipWs (s : Chars) : Chars := s.dropWhile isWsB

def isDigitB (c : Char) : Bool := 48 ≤ c.toNat && c.toNat ≤ 57

def digitsToNat (ds : Chars) : Nat := ds.foldl (fun a c => a * 10 + (c.toNat - 48)) 0

def hexDigitVal (c : Char) : Option Nat :=
  if 48 ≤ c.toNat ∧ c.toNat ≤ 57 then some (c.toNat - 48)
  else if 97 ≤ c.toNat ∧ c.toNat ≤ 102 then some (c.toNat - 87)
  else if 65 ≤ c.toNat ∧ c.toNat ≤ 70 then some (c.toNat - 55)
  else none

/-- String body parser (after the opening quote), fuel-indexed. -/
def parseStringBodyF : Nat → Chars → Option (Chars × Chars)
  | 0, _ => none
  | _, [] => none
  | fuel+1, c :: rest =>
    if c = '"' then some ([], rest)
    else if c = '\\' then
      match rest with
      | [] => none
      | e :: rest2 =>
        let dec : Option (Char × Chars) :=
          if e = '"' then some ('"', rest2)
          else if e = '\\' then some ('\\', rest2)
          else if e = '/' then some ('/', rest2)
          else if e = 'n' then some ('\n', rest2)
          else if e = 't' then some ('\t', rest2)
          else if e = 'r' then some ('\r', rest2)
          else if e = 'b' then some ('\x08', rest2)
          else if e = 'f' then some ('\x0c', rest2)
          else if e = 'u' then
            match rest2 with
            | h1 :: h2 :: h3 :: h4 :: r =>
              match hexDigitVal h1, hexDigitVal h2, hexDigitVal h3, hexDigitVal h4 with
              | some d1, some d2, some d3, some d4 =>
                some (Char.ofNat (((d1 * 16 + d2) * 16 + d3) * 16 + d4), r)
              | _, _, _, _ => none
            | _ => none
          else none
        match dec with
        | none => none
        | some (d, rest3) =>
          match parseStringBodyF fuel rest3 with
          | none => none
          | some (tail, r) => some (d :: tail, r)
    else if c.toNat < 32 then none
    else
      match parseStringBodyF fuel rest with
      | none => none
      | some (tail, r) => some (c :: tail, r)

/-- JSON number parser: sign, integer part without leading zeros,
optional fraction, optional exponent; result is a scaled decimal. -/
def parseNumber (s : Chars) : Option (Json × Chars) :=
  let signSplit : Bool × Chars := match s with
    | '-' :: r => (true, r)
    | _ => (false, s)
  let neg := signSplit.1
  let s1 := signSplit.2
  let intDigits := s1.takeWhile isDigitB
  let s2 := s1.dropWhile isDigitB
  if intDigits.isEmpty then none
  else if intDigits.length > 1 ∧ intDigits.headD '0' = '0' then none
  else
    let fracSplit : Option (Chars × Chars) := match s2 with
      | '.' :: r =>
        let fd := r.takeWhile isDigitB
        if fd.isEmpty then none else some (fd, r.dropWhile isDigitB)
      | _ => some ([], s2)
    match fracSplit with
    | none => none
    | some (fracDigits, s3) =>
      let expSplit : Option (Int × Chars) := match s3 with
        | 'e' :: r | 'E' :: r =>
          let esign : Bool × Chars := match r with
            | '-' :: r2 => (true, r2)
            | '+' :: r2 => (false, r2)
            | _ => (false, r)
          let ed := esign.2.takeWhile isDigitB
          if ed.isEmpty then none
          else
            let ev : Int := Int.ofNat (digitsToNat ed)
            some (if esign.1 then -ev else ev, esign.2.dropWhile isDigitB)
        | _ => some (0, s3)
      match expSplit with
      | none => none
      | some (expVal, s4) =>
        let mant : Int := Int.ofNat (digitsToNat (intDigits ++ fracDigits))
        some (.num (if neg then -mant else mant)
          (expVal - Int.ofNat fracDigits.length), s4)

mutual

def parseValF : Nat → Chars → Option (Json × Chars)
  | 0, _ => none
  | fuel+1, s0 =>
    match skipWs s0 with
    | [] => none
    | c :: rest =>
      if c = '\x7b' then
        match skipWs rest with
        | '\x7d' :: r => some (.obj [], r)
        | r2 => parseMembersF fuel r2 []
      else if c = '[' then
        match skipWs rest with
        | ']' :: r => some (.arr [], r)
        | r2 => parseItemsF fuel r2 []
      else if c = '"' then
        match parseStringBodyF (rest.length + 1) rest with
        | none => none
        | some (str, r) => some (.str str, r)
      else if c = 't' then
        if "rue".data.isPrefixOf rest then some (.bool true, rest.drop 3) else none
      else if c = 'f' then
        if "alse".data.isPrefixOf rest then some (.bool false, rest.drop 4) else none
      else if c = 'n' then
        if "ull".data.isPrefixOf rest then some (.null, rest.drop 3) else none
      else parseNumber (c :: rest)

def parseMembersF : Nat → Chars → List (Chars × Json) → Option (Json × Chars)
  | 0, _, _ => none
  | fuel+1, s, acc =>
    match skipWs s with
    | '"' :: rest =>
      match parseStringBodyF (rest.length + 1) rest with
      | none => none
      | some (key, r1) =>
        match skipWs r1 with
        | ':' :: r3 =>
          match parseValF fuel r3 with
          | none => none
          | some (v, r4) =>
            match skipWs r4 with
            | ',' :: r6 => parseMembersF fuel r6 (assocSet acc key v)
            | '\x7d' :: r6 => some (.obj (assocSet acc key v), r6)
            | _ => none
        | _ => none
    | _ => none

def parseItemsF : Nat → Chars → List Json → Option (Json × Chars)
  | 0, _, _ => none
  | fuel+1, s, acc =>
    match parseValF fuel s with
    | none => none
    | some (v, r1) =>
      match skipWs r1 with
      | ',' :: r3 => parseItemsF fuel r3 (acc ++ [v])
      | ']' :: r3 => some (.arr (acc ++ [v]), r3)
      | _ => none

end

def Json.parse (s : Chars) : Option Json :=
  match parseValF (s.length + 1) s with
  | some (j, rest) => if (skipWs rest).isEmpty then some j else none
  | none => none

/-- Enumerable own fields of a value under JS object spread:
objects contribute their fields, arrays and strings contribute indexed
entries, primitives contribute nothing. -/
def Json.spreadFields : Json → List (Chars × Json)
  | .obj fs => fs
  | .arr xs => xs.enum.map (fun p => (natChars p.1, p.2))
  | .str s => s.enum.map (fun p => (natChars p.1, Json.str [p.2]))
  | _ => []

theorem intChars_nlFree (m : Int) : freeOf '\n' (intChars m) = true := by
  rw [intChars]
  split
  · rw [freeOf_cons, natChars_freeOf_nl]
    decide
  · exact natChars_freeOf_nl _

theorem escapeChar_nlFree (c : Char) : freeOf '\n' (escapeChar c) = true := by
  rw [escapeChar]
  split_ifs with h1 h2 h3 h4 h5 h6 h7
  all_goals try decide
  rw [freeOf_cons]
  simp only [freeOf, List.contains_nil, Bool.not_false, Bool.and_true]
  simp only [Bool.not_eq_eq_eq_not, Bool.not_true, beq_eq_false_iff_ne, ne_eq]
  intro hc
  exact h3 hc.symm

theorem escapeChars_nlFree (s : Chars) : freeOf '\n' (escapeChars s) = true := by
  induction s with
  | nil => decide
  | cons c rest ih =>
    simp only [escapeChars, List.map_cons, List.flatten_cons]
    rw [freeOf_append, escapeChar_nlFree]
    simpa [escapeChars] using ih

mutual

theorem Json.stringify_nlFree : ∀ j : Json, freeOf '\n' (Json.stringify j) = true
  | .null => by decide
  | .bool true => by decide
  | .bool false => by decide
  | .num m e => by
    simp only [Json.stringify]
    rw [freeOf_append, intChars_nlFree]
    split
    · decide
    · rw [freeOf_cons, intChars_nlFree]
      decide
  | .str s => by
    simp only [Json.stringify]
    simp only [freeOf_append, freeOf_cons, escapeChars_nlFree]
    decide
  | .arr xs => by
    simp only [Json.stringify]
    simp only [freeOf_append, freeOf_cons, Json.stringifyList_nlFree xs]
    decide
  | .obj fs => by
    simp only [Json.stringify]
    simp only [freeOf_append, freeOf_cons, Json.stringifyFields_nlFree fs]
    decide

theorem Json.stringifyList_nlFree : ∀ xs : List Json,
    freeOf '\n' (Json.stringifyList xs) = true
  | [] => by decide
  | x :: xs => by
    simp only [Json.stringifyList]
    rw [freeOf_append, Json.stringify_nlFree x]
    split
    · decide
    · rw [freeOf_cons, Json.stringifyList_nlFree xs]
      decide

theorem Json.stringifyFields_nlFree : ∀ fs : List (Chars × Json),
    freeOf '\n' (Json.stringifyFields fs) = true
  | [] => by decide
  | (k, v) :: fs => by
    simp only [Json.stringifyFields]
    simp only [freeOf_append, freeOf_cons, escapeChars_nlFree,
      Json.stringify_nlFree v]
    split
    · decide
    · simp only [freeOf_append, freeOf_cons, Json.stringifyFields_nlFree fs]
      decide

end

/-! ### The log collector (src/server.ts) -/

namespace DebugLogServer

structure Req : Type where
  method : Chars
  url : Chars
  body : Chars

structure Resp : Type where
  status : Nat
  body : Chars
deriving DecidableEq

/-- `writeLog`: append the posted entry augmented with `receivedAt`
(`{ ...entry, receivedAt: Date.now() }`) as one newline-terminated JSON
line to the log store. -/
def writeLog (entry : Json) (now : Nat) (logStore : Chars) : Chars :=
  logStore ++
    Json.stringify (.obj (assocSet (Json.spreadFields entry) "receivedAt".data
      (.num (Int.ofNat now) 0))) ++ ['\n']

/-- `handleRequest` on a fully buffered request.  CORS headers, set
unconditionally on every response, are not modelled (no claim concerns
headers).  `now` is `Date.now()` at ingestion time; `logStore` is the
contents of the log file. -/
def handleRequest (port : Nat) (req : Req) (now : Nat) (logStore : Chars) :
    Resp × Chars :=
  if req.method = "OPTIONS".data then (⟨204, []⟩, logStore)
  else if req.method = "GET".data ∧ req.url = "/health".data then
    (⟨200, Json.stringify (.obj [("status".data, .str "ok".data),
      ("port".data, .num (Int.ofNat port) 0)])⟩, logStore)
  else if req.method = "POST".data ∧ req.url = "/log".data then
    match Json.parse req.body with
    | some logEntry =>
      (⟨200, Json.stringify (.obj [("success".data, .bool true)])⟩,
       writeLog logEntry now logStore)
    | none =>
      (⟨400, Json.stringify (.obj [("error".data, .str "Invalid JSON".data)])⟩,
       logStore)
  else
    (⟨404, Json.stringify (.obj [("error".data, .str "Not found".data)])⟩,
     logStore)

end DebugLogServer

/-! ### The session manager (src/session.ts) -/

/-- Modelled `path.resolve(workingDirectory, input)` for inputs without
`.`/`..` segments: absolute inputs are returned unchanged, relative ones
joined below the working directory. -/
def resolvePath (wd f : Chars) : Chars :=
  match f with
  | '/' :: _ => f
  | _ => wd ++ "/".data ++ f

/-- `detectLanguage`: extension after the last dot, lowercased. -/
def detectLanguage (file : Chars) : Language :=
  let ext := ((file.splitOn '.').getLastD []).map Char.toLower
  if ext = "ts".data ∨ ext = "tsx".data then .typescript
  else if ext = "js".data ∨ ext = "jsx".data ∨ ext = "mjs".data ∨
    ext = "cjs".data then .javascript
  else if ext = "py".data then .python
  else .javascript

structure DebugSession : Type where
  id : Chars
  port : Nat
  startedAt : Nat
  logFile : Chars
  instruments : List (Chars × Instrument)

structure SMState : Type where
  workingDirectory : Chars
  session : Option DebugSession
  serverRunning : Bool
  fs : FS

/-- Environment inputs of one operation: `randomUUID().slice(0, 8)`
(modelled as a caller-supplied token), `Date.now()`, and whether
`server.listen` succeeds on the requested port. -/
structure Env : Type where
  uuid : Chars
  now : Nat
  portFree : Bool

def assocDelete {α : Type} : List (Chars × α) → Chars → Bool × List (Chars × α)
  | [], _ => (false, [])
  | (k', v') :: rest, k =>
    if k' = k then (true, rest)
    else
      let p := assocDelete rest k
      (p.1, (k', v') :: p.2)

namespace SessionManager

/-- `startSession`: refuse when a session is live; otherwise truncate the
log file (`unlinkSync` + `writeFileSync('')`), start the server and
install the new session.  State mutations made before a thrown error
persist (the log file is already truncated when `listen` fails). -/
def startSession (port : Nat) (env : Env) (st : SMState) :
    Except Chars DebugSession × SMState :=
  match st.session with
  | some _ => (.error "Debug session already active. Stop it first.".data, st)
  | none =>
    let logFile := resolvePath st.workingDirectory "debug.log".data
    match st.fs.writeFile logFile [] with
    | .error e => (.error e, st)
    | .ok fs1 =>
      if env.portFree then
        let sess : DebugSession := ⟨env.uuid, port, env.now, logFile, []⟩
        (.ok sess,
         { st with fs := fs1, session := some sess, serverRunning := true })
      else
        (.error "listen EADDRINUSE".data, { st with fs := fs1 })

/-- `stopSession`: stop the server when running, discard the session. -/
def stopSession (st : SMState) : SMState :=
  { st with serverRunning := false, session := none }

def isActive (st : SMState) : Bool := st.session.isSome

/-- `addInstrument`: requires a live session; detect language from the
raw input path, resolve the path, register the instrument in the session
map under its fresh identifier. -/
def addInstrument (file : Chars) (line : Nat) (capture : List Chars)
    (env : Env) (st : SMState) : Except Chars (Instrument × SMState) :=
  match st.session with
  | none => .error "No active debug session".data
  | some sess =>
    let language := detectLanguage file
    let inst : Instrument :=
      ⟨"dbg-".data ++ env.uuid, resolvePath st.workingDirectory file, line,
       language, capture, env.now⟩
    let sess' := { sess with instruments := assocSet sess.instruments inst.id inst }
    .ok (inst, { st with session := some sess' })

def removeInstrument (id : Chars) (st : SMState) : Except Chars (Bool × SMState) :=
  match st.session with
  | none => .error "No active debug session".data
  | some sess =>
    let p := assocDelete sess.instruments id
    .ok (p.1, { st with session := some { sess with instruments := p.2 } })

def getInstruments (st : SMState) : List Instrument :=
  match st.session with
  | none => []
  | some sess => sess.instruments.map Prod.snd

def getInstrumentsByFile (file : Chars) (st : SMState) : List Instrument :=
  (getInstruments st).filter
    (fun i => i.file == resolvePath st.workingDirectory file)

def clearInstruments (st : SMState) : SMState :=
  match st.session with
  | none => st
  | some sess => { st with session := some { sess with instruments := [] } }

/-- `readLogs`: requires a live session; a missing log file reads as the
empty string rather than an error. -/
def readLogs (st : SMState) : Except Chars Chars :=
  match st.session with
  | none => .error "No active debug session".data
  | some sess =>
    match st.fs.files sess.logFile with
    | none => .ok []
    | some content => .ok content

def clearLogs (st : SMState) : Except Chars SMState :=
  match st.session with
  | none => .error "No active debug session".data
  | some sess =>
    match st.fs.writeFile sess.logFile [] with
    | .ok fs' => .ok { st with fs := fs' }
    | .error e => .error e

end SessionManager

/-! ### The MCP tool handlers (src/index.ts)

`GState` is the module state of `index.ts`: the session manager plus the
`instrumenter` variable (modelled by the port it was constructed with).
Each handler returns a `ToolResult` and the new state; the surrounding
`try`/`catch` that turns thrown errors into `isError` results is folded
into the handlers, with mutations made before the throw preserved. -/

structure GState : Type where
  sm : SMState
  instrumenterPort : Option Nat

structure ToolResult : Type where
  text : Chars
  isError : Bool

/-- `start_debug_session` handler; `(args?.port as number) || 9876` makes
both an absent and a zero port fall back to 9876. -/
def handleStartDebugSession (portArg : Nat) (env : Env) (g : GState) :
    ToolResult × GState :=
  let port := if portArg = 0 then 9876 else portArg
  match SessionManager.startSession port env g.sm with
  | (.ok sess, sm') =>
    (⟨"Debug session started!\n\nSession ID: ".data ++ sess.id, false⟩,
     ⟨sm', some port⟩)
  | (.error e, sm') => (⟨"Error: ".data ++ e, true⟩, ⟨sm', g.instrumenterPort⟩)

/-- The `stop_debug_session` removal loop: one `removeInstrument` per
registered instrument; a thrown error aborts the loop, keeping the
filesystem state reached so far. -/
def removeLoop : List Instrument → FS → FS × Option Chars
  | [], fs => (fs, none)
  | i :: rest, fs =>
    match Instrumenter.removeInstrument i fs with
    | .ok (fs', _) => removeLoop rest fs'
    | .error e => (fs, some e)

def handleStopDebugSession (g : GState) : ToolResult × GState :=
  if SessionManager.isActive g.sm = false then
    (⟨"No active debug session to stop.".data, false⟩, g)
  else
    let instruments := SessionManager.getInstruments g.sm
    match g.instrumenterPort with
    | some port =>
      match removeLoop instruments g.sm.fs with
      | (fs', none) =>
        let sm' := SessionManager.stopSession { g.sm with fs := fs' }
        (⟨"Debug session stopped. Removed ".data ++
            natChars instruments.length ++ " instrument(s) from code.".data,
          false⟩, ⟨sm', none⟩)
      | (fs', some e) =>
        (⟨"Error: ".data ++ e, true⟩, ⟨{ g.sm with fs := fs' }, some port⟩)
    | none =>
      let sm' := SessionManager.stopSession g.sm
      (⟨"Debug session stopped. Removed ".data ++
          natChars instruments.length ++ " instrument(s) from code.".data,
        false⟩, ⟨sm', none⟩)

/-- `add_instrument` handler.  Note the order of effects: the registry is
updated by `sessionManager.addInstrument` before
`instrumenter.addInstrument` validates the file and line; a validation
throw is caught after the registry mutation. -/
def handleAddInstrument (file : Chars) (line : Nat) (capture : List Chars)
    (env : Env) (g : GState) : ToolResult × GState :=
  match g.sm.session, g.instrumenterPort with
  | some _, some port =>
    if file.isEmpty || line == 0 then
      (⟨"Missing required parameters: file and line".data, true⟩, g)
    else
      match SessionManager.addInstrument file line capture env g.sm with
      | .error e => (⟨"Error: ".data ++ e, true⟩, g)
      | .ok (inst, sm1) =>
        match Instrumenter.addInstrument port inst sm1.fs with
        | .ok fs' =>
          (⟨"Instrument added!\n\nID: ".data ++ inst.id, false⟩,
           ⟨{ sm1 with fs := fs' }, some port⟩)
        | .error e => (⟨"Error: ".data ++ e, true⟩, ⟨sm1, some port⟩)
  | _, _ =>
    (⟨"No active debug session. Start one first with start_debug_session.".data,
      true⟩, g)

/-- The per-file removal loop of `remove_instruments`: each iteration
removes the injected code and then the registry entry; a thrown error
aborts with the state reached so far. -/
def removeByFileLoop : List Instrument → SMState → SMState × Option Chars
  | [], sm => (sm, none)
  | i :: rest, sm =>
    match Instrumenter.removeInstrument i sm.fs with
    | .error e => (sm, some e)
    | .ok (fs', _) =>
      let sm1 := { sm with fs := fs' }
      match SessionManager.removeInstrument i.id sm1 with
      | .error e => (sm1, some e)
      | .ok (_, sm2) => removeByFileLoop rest sm2

def handleRemoveInstruments (fileArg : Option Chars) (g : GState) :
    ToolResult × GState :=
  match g.sm.session, g.instrumenterPort with
  | some _, some port =>
    match fileArg with
    | some file =>
      let instruments := SessionManager.getInstrumentsByFile file g.sm
      match removeByFileLoop instruments g.sm with
      | (sm', none) =>
        (⟨"Removed ".data ++ natChars instruments.length ++
            " instrument(s) from ".data ++ file, false⟩, ⟨sm', some port⟩)
      | (sm', some e) => (⟨"Error: ".data ++ e, true⟩, ⟨sm', some port⟩)
    | none =>
      let instruments := SessionManager.getInstruments g.sm
      match removeLoop instruments g.sm.fs with
      | (fs', none) =>
        let sm' := SessionManager.clearInstruments { g.sm with fs := fs' }
        (⟨"Removed ".data ++ natChars instruments.length ++
            " instrument(s) from all files".data, false⟩, ⟨sm', some port⟩)
      | (fs', some e) =>
        (⟨"Error: ".data ++ e, true⟩, ⟨{ g.sm with fs := fs' }, some port⟩)
  | _, _ => (⟨"No active debug session.".data, true⟩, g)

def handleListInstruments (g : GState) : ToolResult × GState :=
  let instruments := SessionManager.getInstruments g.sm
  if instruments.isEmpty then
    (⟨"No active instruments.".data, false⟩, g)
  else
    let list := joinSep "\n".data (instruments.map (fun i =>
      "- ".data ++ i.id ++ ": ".data ++ i.file ++ ":".data ++
        natChars i.line ++ " [".data ++
        (if i.capture.isEmpty then "no capture".data
         else joinSep ", ".data i.capture) ++ "]".data))
    (⟨"Active instruments (".data ++ natChars instruments.length ++
        "):\n\n".data ++ list, false⟩, g)

def trimChars (s : Chars) : Chars :=
  ((s.dropWhile isWsB).reverse.dropWhile isWsB).reverse

/-- Display-only pretty formatting of log entries.  The spec (§1) places
log pretty-printing for display outside the specified core; no claim
refers to the rendered text, so it is modelled as the identity on the raw
log text. -/
def prettyFormatLogs (logs : Chars) : Chars := logs

def handleReadDebugLogs (format : Chars) (g : GState) : ToolResult × GState :=
  match g.sm.session with
  | none => (⟨"No active debug session.".data, true⟩, g)
  | some _ =>
    match SessionManager.readLogs g.sm with
    | .error e => (⟨"Error: ".data ++ e, true⟩, g)
    | .ok logs =>
      if (trimChars logs).isEmpty then
        (⟨("No logs collected yet. Make sure to reproduce the bug " ++
            "to trigger the instruments.").data, false⟩, g)
      else if format = "raw".data then (⟨logs, false⟩, g)
      else (⟨prettyFormatLogs logs, false⟩, g)

def handleClearDebugLogs (g : GState) : ToolResult × GState :=
  match g.sm.session with
  | none => (⟨"No active debug session.".data, true⟩, g)
  | some _ =>
    match SessionManager.clearLogs g.sm with
    | .ok sm' => (⟨"Debug logs cleared.".data, false⟩, ⟨sm', g.instrumenterPort⟩)
    | .error e => (⟨"Error: ".data ++ e, true⟩, g)

/-! ### Bridge lemmas between the scanner theory and the instrumenter -/

theorem splitNl_of_nlFree {s : Chars} (h : freeOf '\n' s = true) :
    splitNl s = [s] := by
  induction s with
  | nil => rfl
  | cons c rest ih =>
    simp only [splitNl]
    rw [if_neg (freeOf_head_ne h).1, ih (freeOf_head_ne h).2]

theorem splitNl_append_nl {l : Chars} (X : Chars) (h : freeOf '\n' l = true) :
    splitNl (l ++ '\n' :: X) = l :: splitNl X := by
  induction l with
  | nil => simp [splitNl]
  | cons c l' ih =>
    rw [List.cons_append]
    simp only [splitNl]
    rw [if_neg (freeOf_head_ne h).1, ih (freeOf_head_ne h).2]

theorem splitNl_joinNl_of_nlFree :
    ∀ ls : List Chars, ls ≠ [] → (∀ l ∈ ls, freeOf '\n' l = true) →
      splitNl (joinNl ls) = ls := by
  intro ls
  induction ls with
  | nil => intro h _; exact absurd rfl h
  | cons l ls' ih =>
    intro _ hls
    cases hl : ls' with
    | nil =>
      rw [joinNl_single]
      exact splitNl_of_nlFree (hls l (by simp))
    | cons x xs =>
      rw [← hl, joinNl_cons l ls' (by simp [hl]),
        splitNl_append_nl _ (hls l (by simp)),
        ih (by simp [hl]) (fun z hz => hls z (by simp [hz]))]

theorem flatten_plain_map (xs : List Chars) :
    ((xs.map RItem.plain).map RItem.lines).flatten = xs := by
  induction xs with
  | nil => rfl
  | cons x xs ih =>
    simp only [List.map_cons, List.flatten_cons, RItem.lines, ih]
    rfl

theorem filter_matchesB_plain (sl el : Chars) (xs : List Chars) :
    (xs.map RItem.plain).filter (RItem.matchesB sl el) = [] := by
  induction xs with
  | nil => rfl
  | cons x xs ih => simp [RItem.matchesB, List.filter_cons, ih]

theorem filter_not_matchesB_plain (sl el : Chars) (xs : List Chars) :
    (xs.map RItem.plain).filter (fun it => !RItem.matchesB sl el it) =
      xs.map RItem.plain := by
  induction xs with
  | nil => rfl
  | cons x xs ih => simp [RItem.matchesB, List.filter_cons, ih]

/-- The lines of an item transparent to `sl` are newline-free and clean
of `sl`. -/
theorem RItem.passesB_lines {sl : Chars} {it : RItem}
    (h : it.passesB sl = true) :
    ∀ l ∈ it.lines, freeOf '\n' l = true ∧ containsSub sl l = false := by
  cases it with
  | plain l =>
    simp only [RItem.passesB, Bool.and_eq_true] at h
    intro x hx
    simp only [RItem.lines, List.mem_singleton] at hx
    subst hx
    exact ⟨h.1, by simpa using h.2⟩
  | reg s b e =>
    simp only [RItem.passesB, Bool.and_eq_true, List.all_eq_true] at h
    obtain ⟨⟨⟨h1, h2⟩, h3⟩, h4, h5⟩ := h
    intro x hx
    simp only [RItem.lines, List.mem_cons, List.mem_append,
      List.mem_singleton] at hx
    rcases hx with (hx | hx) | (hx | hx)
    · subst hx; exact ⟨h1, by simpa using h2⟩
    · obtain ⟨ha, hb2⟩ := h3 x hx
      exact ⟨ha, by simpa using hb2⟩
    · subst hx; exact ⟨h4, by simpa using h5⟩
    · exact absurd hx (List.not_mem_nil x)

/-- An item cannot both match and pass: matching begins with the start
literal, passing excludes every occurrence of it. -/
theorem RItem.matchesB_eq_false_of_passesB {sl el : Chars} {it : RItem}
    (h : it.passesB sl = true) : it.matchesB sl el = false := by
  cases it with
  | plain l => rfl
  | reg s b e =>
    simp only [RItem.passesB, Bool.and_eq_true] at h
    rw [Bool.eq_false_iff]
    intro hm
    simp only [RItem.matchesB, Bool.and_eq_true] at hm
    have hcon := containsSub_of_isPrefixOf hm.1.1.1
    have := h.1.1.2
    rw [hcon] at this
    simp at this

/-- The scanner fixes any text with no occurrence of the start literal. -/
theorem removeScan_no_marker {sl el : Chars} (hsl : sl ≠ []) (hel : el ≠ [])
    {s : Chars} (h : containsSub sl s = false) :
    removeScan sl el s = (0, s) := by
  induction s with
  | nil => exact removeScan_nil sl el
  | cons c rest ih =>
    rw [containsSub_cons, Bool.or_eq_false_iff] at h
    have hpre : matchRegionAt sl el (c :: rest) = none :=
      matchRegionAt_none_of_not_starting h.1
    rw [removeScan_cons_nomatch hsl hel hpre, ih h.2]

theorem joinNl_length :
    ∀ ls : List Chars, ls ≠ [] →
      (joinNl ls).length + 1 = (ls.map List.length).sum + ls.length := by
  intro ls
  induction ls with
  | nil => intro h; exact absurd rfl h
  | cons l ls' ih =>
    intro _
    cases hl : ls' with
    | nil => simp [joinNl_single]
    | cons x xs =>
      rw [← hl, joinNl_cons l ls' (by simp [hl])]
      simp only [List.length_append, List.length_cons, List.map_cons,
        List.sum_cons]
      have := ih (by simp [hl])
      omega

theorem containsSub_of_mem_joinNl {pat l : Chars} {ls : List Chars}
    (hmem : l ∈ ls) (h : containsSub pat l = true) :
    containsSub pat (joinNl ls) = true := by
  induction ls with
  | nil => exact absurd hmem (List.not_mem_nil l)
  | cons x xs ih =>
    cases hl : xs with
    | nil =>
      rw [joinNl_single]
      rcases List.mem_cons.mp hmem with rfl | hm
      · exact h
      · rw [hl] at hm
        exact absurd hm (List.not_mem_nil l)
    | cons y ys =>
      rw [← hl, joinNl_cons x xs (by simp [hl])]
      rcases List.mem_cons.mp hmem with rfl | hm
      · exact containsSub_append_right _ h
      · have h2 := ih hm
        have h3 : x ++ '\n' :: joinNl xs = (x ++ ['\n']) ++ joinNl xs := by simp
        rw [h3]
        exact containsSub_append_left _ h2

namespace Instrumenter

theorem jsInstrumentLines_nlFree {i : Instrument} (hc : i.cleanB = true)
    (port : Nat) : ∀ l ∈ jsInstrumentLines port i, freeOf '\n' l = true := by
  obtain ⟨hid1, hid2, hf1, hf2, hcap⟩ := Instrument.cleanB_spec hc
  intro l hl
  rw [jsInstrumentLines_decomp] at hl
  rcases List.mem_cons.mp hl with rfl | hl2
  · exact jsStartLine_nlFree hid2
  · rcases List.mem_append.mp hl2 with hl3 | hl3
    · exact (jsBodyLines_clean hc port l hl3).2
    · rw [List.mem_singleton] at hl3
      subst hl3
      exact jsEndLine_nlFree hid2

theorem pyInstrumentLines_nlFree {i : Instrument} (hc : i.cleanB = true)
    (port : Nat) : ∀ l ∈ pyInstrumentLines port i, freeOf '\n' l = true := by
  obtain ⟨hid1, hid2, hf1, hf2, hcap⟩ := Instrument.cleanB_spec hc
  intro l hl
  rw [pyInstrumentLines_decomp] at hl
  rcases List.mem_cons.mp hl with rfl | hl2
  · exact pyStartLine_nlFree hid2
  · rcases List.mem_append.mp hl2 with hl3 | hl3
    · exact (pyBodyLines_clean hc port l hl3).2
    · rw [List.mem_singleton] at hl3
      subst hl3
      exact pyEndLine_nlFree hid2

end Instrumenter

theorem flat_lines_plain_append (xs : List Chars) (its : List RItem) :
    ((xs.map RItem.plain ++ its).map RItem.lines).flatten =
      xs ++ (its.map RItem.lines).flatten := by
  rw [List.map_append, List.flatten_append, flatten_plain_map]

/-- Splicing one well-formed region's lines between the lines of a clean
text and scanning removes exactly that region, restoring the text. -/
theorem scan_spliced_region {sl el : Chars} (hsl : sl ≠ []) (hel : el ≠ [])
    (hslnl : freeOf '\n' sl = true) (helnl : freeOf '\n' el = true)
    (item : RItem) (hmatch : item.matchesB sl el = true)
    (L : List Chars)
    (hL : ∀ l ∈ L, freeOf '\n' l = true ∧ containsSub sl l = false)
    (k : Nat) (hk1 : 1 ≤ k) (hk2 : k ≤ L.length) :
    removeScan sl el (joinNl (L.take (k-1) ++ item.lines ++ L.drop (k-1))) =
      (1, joinNl L) := by
  have hlendrop : (L.drop (k-1)).length = L.length - (k-1) :=
    List.length_drop (k-1) L
  have postne : L.drop (k-1) ≠ [] := by
    intro h
    rw [h] at hlendrop
    simp at hlendrop
    omega
  have hsplitpost : (L.drop (k-1)).dropLast ++ [(L.drop (k-1)).getLast postne] =
      L.drop (k-1) := List.dropLast_append_getLast postne
  set last := (L.drop (k-1)).getLast postne with hlastdef
  set D := (L.drop (k-1)).dropLast with hDdef
  have hlastL : last ∈ L := List.drop_subset (k-1) L (List.getLast_mem postne)
  have hDL : ∀ l ∈ D, l ∈ L := fun l hl =>
    List.drop_subset (k-1) L (List.dropLast_subset (L.drop (k-1)) hl)
  have hflat : ((((L.take (k-1)).map RItem.plain ++ [item] ++ D.map RItem.plain) ++
      [RItem.plain last]).map RItem.lines).flatten =
      L.take (k-1) ++ item.lines ++ L.drop (k-1) := by
    rw [List.append_assoc, List.append_assoc, flat_lines_plain_append,
      show ([item] ++ (D.map RItem.plain ++ [RItem.plain last]) : List RItem) =
        item :: (D.map RItem.plain ++ [RItem.plain last]) from rfl,
      List.map_cons, List.flatten_cons,
      show ([RItem.plain last] : List RItem) = [last].map RItem.plain from rfl,
      ← List.map_append, flatten_plain_map, hsplitpost, List.append_assoc]
  have hok : ∀ it ∈ (L.take (k-1)).map RItem.plain ++ [item] ++ D.map RItem.plain,
      RItem.okB sl el it = true := by
    intro it hit
    simp only [List.mem_append, List.mem_map, List.mem_singleton] at hit
    rcases hit with (⟨l, hl, rfl⟩ | rfl) | ⟨l, hl, rfl⟩
    · have h2 := hL l (List.take_subset (k-1) L hl)
      simp [RItem.okB, RItem.passesB, h2.1, h2.2]
    · simp [RItem.okB, hmatch]
    · have h2 := hL l (hDL l hl)
      simp [RItem.okB, RItem.passesB, h2.1, h2.2]
  have hlast2 := hL last hlastL
  have hmain := removeScan_renderItems hsl hel hslnl helnl
    ((L.take (k-1)).map RItem.plain ++ [item] ++ D.map RItem.plain) last
    hlast2.1 hlast2.2 hok
  rw [show renderItems (((L.take (k-1)).map RItem.plain ++ [item] ++
      D.map RItem.plain) ++ [RItem.plain last]) =
      joinNl (L.take (k-1) ++ item.lines ++ L.drop (k-1)) from by
    rw [renderItems, hflat]] at hmain
  have hf1 : ((L.take (k-1)).map RItem.plain ++ [item] ++
      D.map RItem.plain).filter (RItem.matchesB sl el) = [item] := by
    rw [List.filter_append, List.filter_append, filter_matchesB_plain,
      filter_matchesB_plain]
    simp [List.filter_cons, hmatch]
  have hf2 : ((L.take (k-1)).map RItem.plain ++ [item] ++
      D.map RItem.plain).filter (fun it => !RItem.matchesB sl el it) =
      (L.take (k-1)).map RItem.plain ++ D.map RItem.plain := by
    rw [List.filter_append, List.filter_append, filter_not_matchesB_plain,
      filter_not_matchesB_plain]
    simp [List.filter_cons, hmatch]
  have hrender : renderItems (((L.take (k-1)).map RItem.plain ++
      D.map RItem.plain) ++ [RItem.plain last]) = joinNl L := by
    rw [renderItems, List.append_assoc, flat_lines_plain_append,
      show ([RItem.plain last] : List RItem) = [last].map RItem.plain from rfl,
      ← List.map_append, flatten_plain_map, hsplitpost, List.take_append_drop]
  rw [hf1, hf2] at hmain
  rw [hrender] at hmain
  simpa using hmain

theorem joinNl_insert_longer (A B C : List Chars) (hB : B ≠ []) (hC : C ≠ []) :
    (joinNl (A ++ C)).length < (joinNl (A ++ B ++ C)).length := by
  have h1 := joinNl_length (A ++ B ++ C) (by simp [hC])
  have h2 := joinNl_length (A ++ C) (by simp [hC])
  simp only [List.map_append, List.sum_append, List.length_append] at h1 h2
  have hb : 0 < B.length := List.length_pos.mpr hB
  omega

namespace Instrumenter

theorem jsInstrumentLines_ne_nil (port : Nat) (i : Instrument) :
    jsInstrumentLines port i ≠ [] := by
  rw [jsInstrumentLines_decomp]
  simp

theorem pyInstrumentLines_ne_nil (port : Nat) (i : Instrument) :
    pyInstrumentLines port i ≠ [] := by
  rw [pyInstrumentLines_decomp]
  simp

/-- The generated block splits back into exactly the template's lines. -/
theorem splitNl_generateInstrumentCode {i : Instrument} (hc : i.cleanB = true)
    (port : Nat) :
    splitNl (generateInstrumentCode port i) =
      (match i.language with
        | .python => pyRegionItem port i
        | _ => jsRegionItem port i).lines := by
  cases hl : i.language with
  | javascript =>
    rw [generateInstrumentCode, hl]
    rw [show generateJSInstrument port i = joinNl (jsInstrumentLines port i) from rfl]
    rw [splitNl_joinNl_of_nlFree _ (jsInstrumentLines_ne_nil port i)
      (jsInstrumentLines_nlFree hc port)]
    rfl
  | typescript =>
    rw [generateInstrumentCode, hl]
    rw [show generateJSInstrument port i = joinNl (jsInstrumentLines port i) from rfl]
    rw [splitNl_joinNl_of_nlFree _ (jsInstrumentLines_ne_nil port i)
      (jsInstrumentLines_nlFree hc port)]
    rfl
  | python =>
    rw [generateInstrumentCode, hl]
    rw [show generatePythonInstrument port i = joinNl (pyInstrumentLines port i) from rfl]
    rw [splitNl_joinNl_of_nlFree _ (pyInstrumentLines_ne_nil port i)
      (pyInstrumentLines_nlFree hc port)]
    rfl

/-- Every line of a content clean of `sl` is itself clean of `sl`. -/
theorem splitNl_line_clean {sl content : Chars}
    (hmark : containsSub sl content = false) :
    ∀ l ∈ splitNl content, freeOf '\n' l = true ∧ containsSub sl l = false := by
  intro l hl
  refine ⟨splitNl_lines_nlFree content l hl, ?_⟩
  rw [Bool.eq_false_iff]
  intro hcon
  have h2 := containsSub_of_mem_joinNl hl hcon
  rw [joinNl_splitNl, hmark] at h2
  cases h2

/-- Content-level round trip: splicing the generated block's lines at a
line index within `[1, lineCount]` and scanning with the exact-identifier
pattern for that instrument removes exactly the block and restores the
content byte-for-byte. -/
theorem removeScan_insert_roundtrip {i : Instrument} (hc : i.cleanB = true)
    (port : Nat) (content : Chars)
    (hmark : containsSub
      (startLitFor (REGION_PREFIX ++ "-".data ++ i.id) i.language) content = false)
    (hline1 : 1 ≤ i.line) (hline2 : i.line ≤ (splitNl content).length) :
    removeScan (startLitFor (REGION_PREFIX ++ "-".data ++ i.id) i.language)
      (endLitFor i.language)
      (joinNl ((splitNl content).take (i.line - 1) ++
        splitNl (generateInstrumentCode port i) ++
        (splitNl content).drop (i.line - 1))) = (1, content) := by
  obtain ⟨hid1, hid2, hf1, hf2, hcap⟩ := Instrument.cleanB_spec hc
  cases hl : i.language with
  | javascript =>
    rw [hl] at hmark
    have hsl : startLitFor (REGION_PREFIX ++ "-".data ++ i.id) Language.javascript =
        jsSL i.id := rfl
    have hel : endLitFor Language.javascript = jsEL := rfl
    have hcode : splitNl (generateInstrumentCode port i) =
        (jsRegionItem port i).lines := by
      have h3 := splitNl_generateInstrumentCode hc port
      rw [hl] at h3
      exact h3
    rw [hsl, hel, hcode]
    have hslnl : freeOf '\n' (jsSL i.id) = true := by
      rw [jsSL, freeOf_append, hid2]
      decide
    rw [show (1, content) = (1, joinNl (splitNl content)) from by
      rw [joinNl_splitNl]]
    exact scan_spliced_region (by simp [jsSL]) (by decide) hslnl (by decide)
      (jsRegionItem port i)
      (jsRegionItem_matchesB hc port i.id (List.prefix_refl i.id))
      (splitNl content)
      (splitNl_line_clean (by rw [← hsl]; exact hmark))
      i.line hline1 hline2
  | typescript =>
    rw [hl] at hmark
    have hsl : startLitFor (REGION_PREFIX ++ "-".data ++ i.id) Language.typescript =
        jsSL i.id := rfl
    have hel : endLitFor Language.typescript = jsEL := rfl
    have hcode : splitNl (generateInstrumentCode port i) =
        (jsRegionItem port i).lines := by
      have h3 := splitNl_generateInstrumentCode hc port
      rw [hl] at h3
      exact h3
    rw [hsl, hel, hcode]
    have hslnl : freeOf '\n' (jsSL i.id) = true := by
      rw [jsSL, freeOf_append, hid2]
      decide
    rw [show (1, content) = (1, joinNl (splitNl content)) from by
      rw [joinNl_splitNl]]
    exact scan_spliced_region (by simp [jsSL]) (by decide) hslnl (by decide)
      (jsRegionItem port i)
      (jsRegionItem_matchesB hc port i.id (List.prefix_refl i.id))
      (splitNl content)
      (splitNl_line_clean (by rw [← hsl]; exact hmark))
      i.line hline1 hline2
  | python =>
    rw [hl] at hmark
    have hsl : startLitFor (REGION_PREFIX ++ "-".data ++ i.id) Language.python =
        pySL i.id := rfl
    have hel : endLitFor Language.python = pyEL := rfl
    have hcode : splitNl (generateInstrumentCode port i) =
        (pyRegionItem port i).lines := by
      have h3 := splitNl_generateInstrumentCode hc port
      rw [hl] at h3
      exact h3
    rw [hsl, hel, hcode]
    have hslnl : freeOf '\n' (pySL i.id) = true := by
      rw [pySL, freeOf_append, hid2]
      decide
    rw [show (1, content) = (1, joinNl (splitNl content)) from by
      rw [joinNl_splitNl]]
    exact scan_spliced_region (by simp [pySL]) (by decide) hslnl (by decide)
      (pyRegionItem port i)
      (pyRegionItem_matchesB hc port i.id (List.prefix_refl i.id))
      (splitNl content)
      (splitNl_line_clean (by rw [← hsl]; exact hmark))
      i.line hline1 hline2

end Instrumenter

/-- The filesystem after a successful `writeFileSync` of `c` at `p`. -/
def FS.setFile (fs : FS) (p c : Chars) : FS :=
  { fs with files := fun q => if q = p then some c else fs.files q }

theorem FS.writeFile_ok {fs : FS} {p : Chars} (hw : fs.writable p = true)
    (c : Chars) : fs.writeFile p c = .ok (fs.setFile p c) := by
  rw [FS.writeFile, if_pos hw]
  rfl

theorem FS.setFile_same (fs : FS) (p c : Chars) :
    (fs.setFile p c).files p = some c := by
  simp [FS.setFile]

theorem FS.setFile_other (fs : FS) (p c : Chars) {q : Chars} (hq : q ≠ p) :
    (fs.setFile p c).files q = fs.files q := by
  simp [FS.setFile, hq]

theorem FS.setFile_writable (fs : FS) (p c : Chars) :
    (fs.setFile p c).writable = fs.writable := rfl

/-- C1 (corrected): add-then-remove round-trips byte-for-byte for every
existing, writable file and clean instrument whose line index lies in
`[1, lineCount]`; for `line = lineCount + 1` (which the claim also
allows) the round trip can fail (see the counterexample). -/
theorem c1_add_remove_roundtrip (port : Nat) (i : Instrument) (fs : FS)
    (content : Chars)
    (hc : i.cleanB = true)
    (hfile : fs.files i.file = some content)
    (hw : fs.writable i.file = true)
    (hmark : containsSub
      (Instrumenter.startLitFor (REGION_PREFIX ++ "-".data ++ i.id) i.language)
      content = false)
    (hline1 : 1 ≤ i.line) (hline2 : i.line ≤ (splitNl content).length) :
    ∃ fs1 fs2, Instrumenter.addInstrument port i fs = .ok fs1 ∧
      Instrumenter.removeInstrument i fs1 = .ok (fs2, true) ∧
      fs2.files i.file = some content ∧
      (∀ p, p ≠ i.file → fs2.files p = fs.files p) ∧
      fs2.writable = fs.writable := by
  have hcond : (decide (i.line < 1) ||
      decide (i.line > (splitNl content).length + 1)) = false := by
    simp only [Bool.or_eq_false_iff, decide_eq_false_iff_not, not_lt]
    omega
  refine ⟨fs.setFile i.file
      (joinNl ((splitNl content).take (i.line - 1) ++
        splitNl (Instrumenter.generateInstrumentCode port i) ++
        (splitNl content).drop (i.line - 1))),
    (fs.setFile i.file
      (joinNl ((splitNl content).take (i.line - 1) ++
        splitNl (Instrumenter.generateInstrumentCode port i) ++
        (splitNl content).drop (i.line - 1)))).setFile i.file content,
    ?_, ?_, ?_, ?_, ?_⟩
  · simp only [Instrumenter.addInstrument, hfile, hcond, Bool.false_eq_true,
      if_false]
    exact FS.writeFile_ok hw _
  · have hdropne : (splitNl content).drop (i.line - 1) ≠ [] := by
      intro h
      have h2 : ((splitNl content).drop (i.line - 1)).length = 0 := by
        rw [h]; rfl
      rw [List.length_drop] at h2
      omega
    have hlt : content.length <
        (joinNl ((splitNl content).take (i.line - 1) ++
          splitNl (Instrumenter.generateInstrumentCode port i) ++
          (splitNl content).drop (i.line - 1))).length := by
      have h3 := joinNl_insert_longer ((splitNl content).take (i.line - 1))
        (splitNl (Instrumenter.generateInstrumentCode port i))
        ((splitNl content).drop (i.line - 1))
        (splitNl_ne_nil _) hdropne
      rw [List.take_append_drop, joinNl_splitNl] at h3
      exact h3
    have hne : Instrumenter.removeRegion
        (joinNl ((splitNl content).take (i.line - 1) ++
          splitNl (Instrumenter.generateInstrumentCode port i) ++
          (splitNl content).drop (i.line - 1)))
        (REGION_PREFIX ++ "-".data ++ i.id) i.language ≠
        joinNl ((splitNl content).take (i.line - 1) ++
          splitNl (Instrumenter.generateInstrumentCode port i) ++
          (splitNl content).drop (i.line - 1)) := by
      rw [Instrumenter.removeRegion,
        Instrumenter.removeScan_insert_roundtrip hc port content hmark hline1 hline2]
      intro h
      have h3 : content.length =
          (joinNl ((splitNl content).take (i.line - 1) ++
            splitNl (Instrumenter.generateInstrumentCode port i) ++
            (splitNl content).drop (i.line - 1))).length :=
        congrArg List.length h
      omega
    have hread1 : (fs.setFile i.file
        (joinNl ((splitNl content).take (i.line - 1) ++
          splitNl (Instrumenter.generateInstrumentCode port i) ++
          (splitNl content).drop (i.line - 1)))).files i.file =
        some (joinNl ((splitNl content).take (i.line - 1) ++
          splitNl (Instrumenter.generateInstrumentCode port i) ++
          (splitNl content).drop (i.line - 1))) := FS.setFile_same fs _ _
    simp only [Instrumenter.removeInstrument, hread1, ne_eq, hne,
      not_false_eq_true, if_true]
    have hw1 : (fs.setFile i.file
        (joinNl ((splitNl content).take (i.line - 1) ++
          splitNl (Instrumenter.generateInstrumentCode port i) ++
          (splitNl content).drop (i.line - 1)))).writable i.file = true := hw
    have hrr : Instrumenter.removeRegion
        (joinNl ((splitNl content).take (i.line - 1) ++
          splitNl (Instrumenter.generateInstrumentCode port i) ++
          (splitNl content).drop (i.line - 1)))
        (REGION_PREFIX ++ "-".data ++ i.id) i.language = content := by
      rw [Instrumenter.removeRegion,
        Instrumenter.removeScan_insert_roundtrip hc port content hmark hline1 hline2]
    rw [hrr, FS.writeFile_ok hw1 content]
  · exact FS.setFile_same _ _ _
  · intro p hp
    rw [FS.setFile_other _ _ _ hp, FS.setFile_other _ _ _ hp]
  · rfl

/-- Witness for C1: concrete round trip on a one-line file at line 1. -/
theorem c1_add_remove_roundtrip_witness :
    (⟨"i1".data, "/a.js".data, 1, Language.javascript, [], 0⟩ : Instrument).cleanB
      = true ∧
    (⟨fun p => if p = "/a.js".data then some "a".data else none,
      fun _ => true⟩ : FS).files "/a.js".data = some "a".data ∧
    1 ≤ (splitNl "a".data).length ∧
    (∃ fs1 fs2,
      Instrumenter.addInstrument 9229
        ⟨"i1".data, "/a.js".data, 1, Language.javascript, [], 0⟩
        ⟨fun p => if p = "/a.js".data then some "a".data else none, fun _ => true⟩ =
        .ok fs1 ∧
      Instrumenter.removeInstrument
        ⟨"i1".data, "/a.js".data, 1, Language.javascript, [], 0⟩ fs1 =
        .ok (fs2, true) ∧
      fs2.files "/a.js".data = some "a".data ∧
      (∀ p, p ≠ "/a.js".data → fs2.files p =
        (⟨fun p => if p = "/a.js".data then some "a".data else none,
          fun _ => true⟩ : FS).files p) ∧
      fs2.writable =
        (⟨fun p => if p = "/a.js".data then some "a".data else none,
          fun _ => true⟩ : FS).writable) :=
  ⟨by decide, by decide, by decide,
    c1_add_remove_roundtrip 9229
      ⟨"i1".data, "/a.js".data, 1, Language.javascript, [], 0⟩
      ⟨fun p => if p = "/a.js".data then some "a".data else none, fun _ => true⟩
      "a".data (by decide) (by decide) (by decide) (by decide) (by decide)
      (by decide)⟩

set_option maxRecDepth 100000 in
/-- C1 counterexample: content `a` has one line, so the claim admits
line 2 = lineCount + 1; inserting there and removing the exact instrument
yields `a\n`, which is not byte-identical to `a`. -/
theorem c1_roundtrip_counterexample :
    ∃ fs1 fs2 b,
      Instrumenter.addInstrument 9229
        ⟨"i1".data, "/a.js".data, 2, Language.javascript, [], 0⟩
        ⟨fun p => if p = "/a.js".data then some "a".data else none, fun _ => true⟩ =
        .ok fs1 ∧
      Instrumenter.removeInstrument
        ⟨"i1".data, "/a.js".data, 2, Language.javascript, [], 0⟩ fs1 =
        .ok (fs2, b) ∧
      2 ≤ (splitNl "a".data).length + 1 ∧
      fs2.files "/a.js".data = some "a\n".data ∧
      some "a\n".data ≠ some "a".data :=
  ⟨_, _, _, rfl, rfl, by decide, by decide, by decide⟩

/-- A rendering of items all transparent to `sl` contains no occurrence
of `sl`. -/
theorem renderItems_not_contains {sl : Chars} (hsl : sl ≠ [])
    (hslnl : freeOf '\n' sl = true) (its : List RItem)
    (h : ∀ it ∈ its, it.passesB sl = true) :
    containsSub sl (renderItems its) = false := by
  apply joinNl_not_contains hsl hslnl
  intro l hl
  rw [List.mem_flatten] at hl
  obtain ⟨s, hs, hls⟩ := hl
  rw [List.mem_map] at hs
  obtain ⟨it, hit, rfl⟩ := hs
  exact RItem.passesB_lines (h it hit) l hls

theorem startLitFor_ne_nil (rid : Chars) (lang : Language) :
    Instrumenter.startLitFor rid lang ≠ [] := by
  cases lang <;> simp [Instrumenter.startLitFor]

theorem startLitFor_nlFree {rid : Chars} (hrid : freeOf '\n' rid = true)
    (lang : Language) : freeOf '\n' (Instrumenter.startLitFor rid lang) = true := by
  cases lang <;>
    simp only [Instrumenter.startLitFor, reduceCtorEq, if_false, if_true,
      reduceIte, freeOf_append, hrid, Bool.and_true] <;> decide

theorem endLitFor_ne_nil (lang : Language) :
    Instrumenter.endLitFor lang ≠ [] := by
  cases lang <;> simp [Instrumenter.endLitFor]

theorem endLitFor_nlFree (lang : Language) :
    freeOf '\n' (Instrumenter.endLitFor lang) = true := by
  cases lang <;> simp only [Instrumenter.endLitFor] <;> decide

/-- C3 (corrected): removing an absent region is a no-op returning the
input unchanged (never an error); and on structured text — plain lines
and well-formed regions with a final transparent plain line — removal is
idempotent, because one pass leaves no occurrence of the start literal.
On unstructured text idempotence can fail (see the counterexample). -/
theorem c3_remove_absent_noop_idempotent (rid : Chars) (lang : Language)
    (hrid : freeOf '\n' rid = true) :
    (∀ content, containsSub (Instrumenter.startLitFor rid lang) content = false →
      Instrumenter.removeRegion content rid lang = content) ∧
    (∀ (its : List RItem) (last : Chars),
      freeOf '\n' last = true →
      containsSub (Instrumenter.startLitFor rid lang) last = false →
      (∀ it ∈ its, RItem.okB (Instrumenter.startLitFor rid lang)
        (Instrumenter.endLitFor lang) it = true) →
      Instrumenter.removeRegion
        (Instrumenter.removeRegion (renderItems (its ++ [.plain last])) rid lang)
        rid lang =
        Instrumenter.removeRegion (renderItems (its ++ [.plain last])) rid lang) := by
  have hslne := startLitFor_ne_nil rid lang
  have hslnl := startLitFor_nlFree hrid lang
  have helne := endLitFor_ne_nil lang
  have helnl := endLitFor_nlFree lang
  constructor
  · intro content h
    rw [Instrumenter.removeRegion, removeScan_no_marker hslne helne h]
  · intro its last h1 h2 hok
    have hmain := removeScan_renderItems hslne helne hslnl helnl its last h1 h2 hok
    have hrr1 : Instrumenter.removeRegion (renderItems (its ++ [.plain last]))
        rid lang =
        renderItems (its.filter (fun it =>
          !RItem.matchesB (Instrumenter.startLitFor rid lang)
            (Instrumenter.endLitFor lang) it) ++ [.plain last]) := by
      rw [Instrumenter.removeRegion, hmain]
    rw [hrr1]
    have hpass : ∀ it ∈ its.filter (fun it =>
        !RItem.matchesB (Instrumenter.startLitFor rid lang)
          (Instrumenter.endLitFor lang) it) ++ [RItem.plain last],
        it.passesB (Instrumenter.startLitFor rid lang) = true := by
      intro it hit
      rcases List.mem_append.mp hit with hit2 | hit2
      · rw [List.mem_filter] at hit2
        obtain ⟨hmem, hnm⟩ := hit2
        have hok2 := hok it hmem
        rw [RItem.okB, Bool.or_eq_true] at hok2
        rcases hok2 with hok2 | hok2
        · rw [hok2] at hnm
          cases hnm
        · exact hok2
      · rw [List.mem_singleton] at hit2
        subst hit2
        simp [RItem.passesB, h1, h2]
    have hnc := renderItems_not_contains hslne hslnl _ hpass
    rw [Instrumenter.removeRegion, removeScan_no_marker hslne helne hnc]

/-- Witness for C3 at a concrete identifier and dialect. -/
theorem c3_remove_absent_noop_idempotent_witness :
    freeOf '\n' "claude-debug-x".data = true ∧
    ((∀ content, containsSub
        (Instrumenter.startLitFor "claude-debug-x".data Language.javascript)
        content = false →
      Instrumenter.removeRegion content "claude-debug-x".data
        Language.javascript = content) ∧
    (∀ (its : List RItem) (last : Chars),
      freeOf '\n' last = true →
      containsSub (Instrumenter.startLitFor "claude-debug-x".data
        Language.javascript) last = false →
      (∀ it ∈ its, RItem.okB
        (Instrumenter.startLitFor "claude-debug-x".data Language.javascript)
        (Instrumenter.endLitFor Language.javascript) it = true) →
      Instrumenter.removeRegion
        (Instrumenter.removeRegion (renderItems (its ++ [.plain last]))
          "claude-debug-x".data Language.javascript)
        "claude-debug-x".data Language.javascript =
        Instrumenter.removeRegion (renderItems (its ++ [.plain last]))
          "claude-debug-x".data Language.javascript)) :=
  ⟨by decide,
    c3_remove_absent_noop_idempotent "claude-debug-x".data Language.javascript
      (by decide)⟩

set_option maxRecDepth 100000 in
/-- C3 counterexample: on this text, removing the region for identifier
`claude-debug-x` glues `// #reg` to `ion claude-debug-x`, creating a new
region that a second removal deletes: the second removal is not a no-op. -/
theorem c3_idempotence_counterexample :
    Instrumenter.removeRegion
      "// #reg// #region claude-debug-x\nX\n// #endregion\nion claude-debug-x\nbody\n// #endregion\n".data
      "claude-debug-x".data Language.javascript =
      "// #region claude-debug-x\nbody\n// #endregion\n".data ∧
    Instrumenter.removeRegion
      "// #region claude-debug-x\nbody\n// #endregion\n".data
      "claude-debug-x".data Language.javascript = [] ∧
    ("// #region claude-debug-x\nbody\n// #endregion\n".data : Chars) ≠ [] :=
  ⟨by decide, by decide, by decide⟩

theorem filter_count_split {α : Type} (p q : α → Bool) (l : List α)
    (h : ∀ x ∈ l, ¬(p x = true ∧ q x = true)) :
    (l.filter p).length + ((l.filter (fun x => !p x)).filter q).length =
      (l.filter (fun x => p x || q x)).length := by
  induction l with
  | nil => rfl
  | cons x xs ih =>
    have hx := h x (by simp)
    have hrest : ∀ y ∈ xs, ¬(p y = true ∧ q y = true) := fun y hy =>
      h y (by simp [hy])
    have ih2 := ih hrest
    cases hp : p x with
    | true =>
      have hq : q x = false := by
        cases hqx : q x
        · rfl
        · exact absurd ⟨hp, hqx⟩ hx
      simp only [List.filter_cons, hp, hq, Bool.not_true, Bool.true_or,
        if_true, if_false, List.length_cons, Bool.false_eq_true]
      omega
    | false =>
      cases hq : q x with
      | true =>
        simp only [List.filter_cons, hp, hq, Bool.not_false, Bool.false_or,
          if_true, if_false, List.length_cons, Bool.false_eq_true]
        omega
      | false =>
        simp only [List.filter_cons, hp, hq, Bool.not_false, Bool.false_or,
          if_true, if_false, List.length_cons, Bool.false_eq_true]
        omega

theorem filter_filter_not {α : Type} (p q : α → Bool) (l : List α) :
    (l.filter (fun x => !p x)).filter (fun x => !q x) =
      l.filter (fun x => !(p x || q x)) := by
  rw [List.filter_filter]
  apply List.filter_congr
  intro x _
  cases p x <;> cases q x <;> rfl

/-- Two successive wildcard scans with dialect matchers `A` then `B`: every
item matching one dialect and transparent to the other is removed and
counted exactly once; plain transparent lines survive byte-identical. -/
theorem two_pass_scan {slA elA slB elB : Chars}
    (hAne : slA ≠ []) (hAnl : freeOf '\n' slA = true)
    (helAne : elA ≠ []) (helAnl : freeOf '\n' elA = true)
    (hBne : slB ≠ []) (hBnl : freeOf '\n' slB = true)
    (helBne : elB ≠ []) (helBnl : freeOf '\n' elB = true)
    (its : List RItem) (last : Chars)
    (h1 : freeOf '\n' last = true)
    (h2A : containsSub slA last = false) (h2B : containsSub slB last = false)
    (hcls : ∀ it ∈ its,
      (RItem.matchesB slA elA it = true ∧ RItem.passesB slB it = true) ∨
      (RItem.matchesB slB elB it = true ∧ RItem.passesB slA it = true) ∨
      (RItem.passesB slA it = true ∧ RItem.passesB slB it = true)) :
    (removeScan slA elA (renderItems (its ++ [.plain last]))).1 +
      (removeScan slB elB
        (removeScan slA elA (renderItems (its ++ [.plain last]))).2).1 =
      (its.filter (fun it =>
        RItem.matchesB slA elA it || RItem.matchesB slB elB it)).length ∧
    (removeScan slB elB
      (removeScan slA elA (renderItems (its ++ [.plain last]))).2).2 =
      renderItems (its.filter (fun it =>
        !(RItem.matchesB slA elA it || RItem.matchesB slB elB it)) ++
        [.plain last]) := by
  have hokA : ∀ it ∈ its, RItem.okB slA elA it = true := by
    intro it hit
    rcases hcls it hit with ⟨hm, _⟩ | ⟨_, hp⟩ | ⟨hp, _⟩
    · simp [RItem.okB, hm]
    · simp [RItem.okB, hp]
    · simp [RItem.okB, hp]
  have h1main := removeScan_renderItems hAne helAne hAnl helAnl its last h1 h2A hokA
  have hokB : ∀ it ∈ its.filter (fun it => !RItem.matchesB slA elA it),
      RItem.okB slB elB it = true := by
    intro it hit
    rw [List.mem_filter] at hit
    obtain ⟨hmem, hnm⟩ := hit
    rcases hcls it hmem with ⟨hm, _⟩ | ⟨hm, _⟩ | ⟨_, hp⟩
    · rw [hm] at hnm
      cases hnm
    · simp [RItem.okB, hm]
    · simp [RItem.okB, hp]
  have h2main := removeScan_renderItems hBne helBne hBnl helBnl
    (its.filter (fun it => !RItem.matchesB slA elA it)) last h1 h2B hokB
  rw [h1main, h2main]
  have hexcl : ∀ it ∈ its, ¬(RItem.matchesB slA elA it = true ∧
      RItem.matchesB slB elB it = true) := by
    intro it hit ⟨hmA, hmB⟩
    rcases hcls it hit with ⟨_, hp⟩ | ⟨_, hp⟩ | ⟨hp, _⟩
    · rw [RItem.matchesB_eq_false_of_passesB hp] at hmB
      cases hmB
    · rw [RItem.matchesB_eq_false_of_passesB hp] at hmA
      cases hmA
    · rw [RItem.matchesB_eq_false_of_passesB hp] at hmA
      cases hmA
  exact ⟨filter_count_split _ _ its hexcl,
    congrArg (fun l => renderItems (l ++ [RItem.plain last]))
      (filter_filter_not _ _ its)⟩

/-- Is the structured item a delimited region? -/
def isRegion : RItem → Bool
  | .plain _ => false
  | .reg _ _ _ => true

/-- An item the wildcard bulk removal is specified on: a generated region
of either dialect for a clean instrument, or a plain line transparent to
both wildcard matchers. -/
def wildOk (port : Nat) (it : RItem) : Prop :=
  (∃ i : Instrument, i.cleanB = true ∧
    (it = Instrumenter.jsRegionItem port i ∨
     it = Instrumenter.pyRegionItem port i)) ∨
  (∃ l, it = RItem.plain l ∧ freeOf '\n' l = true ∧
    containsSub (jsSL []) l = false ∧ containsSub (pySL []) l = false)

/-- C2 (confirmed): wildcard bulk removal on a file rendering `N` generated
regions among transparent plain lines removes exactly the `N` regions,
returns `N`, keeps every plain line byte-identical — and the flipped
matcher order produces the same count and the same final text. -/
theorem c2_wildcard_bulk_removal (port : Nat) (fs : FS) (file : Chars)
    (its : List RItem) (last : Chars)
    (hfile : fs.files file = some (renderItems (its ++ [.plain last])))
    (hw : fs.writable file = true)
    (h1 : freeOf '\n' last = true)
    (h2A : containsSub (jsSL []) last = false)
    (h2B : containsSub (pySL []) last = false)
    (hcls : ∀ it ∈ its, wildOk port it) :
    ∃ fs2, Instrumenter.removeAllInstrumentsFromFile file fs =
        .ok (fs2, (its.filter isRegion).length) ∧
      fs2.files file =
        some (renderItems (its.filter (fun it => !isRegion it) ++ [.plain last])) ∧
      (∀ p, p ≠ file → fs2.files p = fs.files p) ∧
      ((removeScan (pySL []) pyEL (renderItems (its ++ [.plain last]))).1 +
        (removeScan (jsSL []) jsEL
          (removeScan (pySL []) pyEL (renderItems (its ++ [.plain last]))).2).1 =
        (its.filter isRegion).length ∧
      (removeScan (jsSL []) jsEL
        (removeScan (pySL []) pyEL (renderItems (its ++ [.plain last]))).2).2 =
        renderItems (its.filter (fun it => !isRegion it) ++ [.plain last])) := by
  have hjsne : (jsSL [] : Chars) ≠ [] := by simp [jsSL]
  have hjsnl : freeOf '\n' (jsSL []) = true := by decide
  have hpyne : (pySL [] : Chars) ≠ [] := by simp [pySL]
  have hpynl : freeOf '\n' (pySL []) = true := by decide
  have hjelne : (jsEL : Chars) ≠ [] := by decide
  have hjelnl : freeOf '\n' jsEL = true := by decide
  have hpelne : (pyEL : Chars) ≠ [] := by decide
  have hpelnl : freeOf '\n' pyEL = true := by decide
  have hclsA : ∀ it ∈ its,
      (RItem.matchesB (jsSL []) jsEL it = true ∧ RItem.passesB (pySL []) it = true) ∨
      (RItem.matchesB (pySL []) pyEL it = true ∧ RItem.passesB (jsSL []) it = true) ∨
      (RItem.passesB (jsSL []) it = true ∧ RItem.passesB (pySL []) it = true) := by
    intro it hit
    rcases hcls it hit with ⟨i, hc, rfl | rfl⟩ | ⟨l, rfl, hl1, hl2, hl3⟩
    · exact Or.inl ⟨Instrumenter.jsRegionItem_matchesB hc port [] List.nil_prefix,
        Instrumenter.jsRegionItem_passesB_py hc port []⟩
    · exact Or.inr (Or.inl
        ⟨Instrumenter.pyRegionItem_matchesB hc port [] List.nil_prefix,
         Instrumenter.pyRegionItem_passesB_js hc port []⟩)
    · exact Or.inr (Or.inr
        ⟨by simp [RItem.passesB, hl1, hl2], by simp [RItem.passesB, hl1, hl3]⟩)
  have hclsB : ∀ it ∈ its,
      (RItem.matchesB (pySL []) pyEL it = true ∧ RItem.passesB (jsSL []) it = true) ∨
      (RItem.matchesB (jsSL []) jsEL it = true ∧ RItem.passesB (pySL []) it = true) ∨
      (RItem.passesB (pySL []) it = true ∧ RItem.passesB (jsSL []) it = true) := by
    intro it hit
    rcases hclsA it hit with h | h | h
    · exact Or.inr (Or.inl h)
    · exact Or.inl h
    · exact Or.inr (Or.inr ⟨h.2, h.1⟩)
  have hA := two_pass_scan hjsne hjsnl hjelne hjelnl hpyne hpynl hpelne hpelnl
    its last h1 h2A h2B hclsA
  have hB := two_pass_scan hpyne hpynl hpelne hpelnl hjsne hjsnl hjelne hjelnl
    its last h1 h2B h2A hclsB
  have hpt : ∀ it ∈ its,
      (RItem.matchesB (jsSL []) jsEL it || RItem.matchesB (pySL []) pyEL it) =
        isRegion it := by
    intro it hit
    rcases hcls it hit with ⟨i, hc, rfl | rfl⟩ | ⟨l, rfl, hl1, hl2, hl3⟩
    · rw [Instrumenter.jsRegionItem_matchesB hc port [] List.nil_prefix,
        Bool.true_or]
      rfl
    · rw [Instrumenter.pyRegionItem_matchesB hc port [] List.nil_prefix,
        Bool.or_true]
      rfl
    · rfl
  have hpt2 : ∀ it ∈ its,
      (RItem.matchesB (pySL []) pyEL it || RItem.matchesB (jsSL []) jsEL it) =
        isRegion it := by
    intro it hit
    rw [Bool.or_comm]
    exact hpt it hit
  have hfA1 : its.filter (fun it =>
      RItem.matchesB (jsSL []) jsEL it || RItem.matchesB (pySL []) pyEL it) =
      its.filter isRegion := List.filter_congr hpt
  have hfA2 : its.filter (fun it =>
      !(RItem.matchesB (jsSL []) jsEL it || RItem.matchesB (pySL []) pyEL it)) =
      its.filter (fun it => !isRegion it) :=
    List.filter_congr (fun x hx => by rw [hpt x hx])
  have hfB1 : its.filter (fun it =>
      RItem.matchesB (pySL []) pyEL it || RItem.matchesB (jsSL []) jsEL it) =
      its.filter isRegion := List.filter_congr hpt2
  have hfB2 : its.filter (fun it =>
      !(RItem.matchesB (pySL []) pyEL it || RItem.matchesB (jsSL []) jsEL it)) =
      its.filter (fun it => !isRegion it) :=
    List.filter_congr (fun x hx => by rw [hpt2 x hx])
  have hflip1 := hB.1
  have hflip2 := hB.2
  rw [hfB1] at hflip1
  rw [hfB2] at hflip2
  have hcount := hA.1
  have htext := hA.2
  rw [hfA1] at hcount
  rw [hfA2] at htext
  have hunfold : Instrumenter.removeAllInstrumentsFromFile file fs =
      (if 0 < (its.filter isRegion).length then
        match fs.writeFile file (renderItems
          (its.filter (fun it => !isRegion it) ++ [.plain last])) with
        | .ok fs' => .ok (fs', (its.filter isRegion).length)
        | .error e => .error e
      else .ok (fs, 0)) := by
    have hcount2 := hcount
    have htext2 := htext
    simp only [jsEL, pyEL] at hcount2 htext2
    simp only [Instrumenter.removeAllInstrumentsFromFile, hfile,
      show ("// #region ".data ++ REGION_PREFIX ++ "-".data : Chars) =
        jsSL [] from rfl,
      show ("# region ".data ++ REGION_PREFIX ++ "-".data : Chars) =
        pySL [] from rfl,
      hcount2, htext2, gt_iff_lt]
  by_cases hN : 0 < (its.filter isRegion).length
  · refine ⟨fs.setFile file (renderItems
      (its.filter (fun it => !isRegion it) ++ [.plain last])), ?_, ?_, ?_, ?_, ?_⟩
    · rw [hunfold, if_pos hN, FS.writeFile_ok hw]
    · exact FS.setFile_same _ _ _
    · intro p hp
      exact FS.setFile_other _ _ _ hp
    · exact hflip1
    · exact hflip2
  · have hzero : (its.filter isRegion).length = 0 := by omega
    have hnil : its.filter isRegion = [] := List.length_eq_zero.mp hzero
    have hall : ∀ it ∈ its, isRegion it = false := by
      intro it hit
      rcases hreg : isRegion it with _ | _
      · rfl
      · exact absurd (List.mem_filter.mpr ⟨hit, hreg⟩) (by rw [hnil]; simp)
    have hself : its.filter (fun it => !isRegion it) = its :=
      List.filter_eq_self.mpr (fun it hit => by rw [hall it hit]; rfl)
    refine ⟨fs, ?_, ?_, ?_, ?_, ?_⟩
    · rw [hunfold, if_neg hN, hzero]
    · rw [hself]
      exact hfile
    · intro p _
      rfl
    · exact hflip1
    · exact hflip2

/-- Witness for C2: one generated JS region above a plain final line. -/
theorem c2_wildcard_bulk_removal_witness :
    (⟨fun p => if p = "/a.js".data then some (renderItems ([Instrumenter.jsRegionItem 9229 ⟨"j1".data, "/a.js".data, 1, Language.javascript, [], 0⟩] ++ [RItem.plain "z".data])) else none, fun _ => true⟩ : FS).files "/a.js".data =
      some (renderItems ([Instrumenter.jsRegionItem 9229 ⟨"j1".data, "/a.js".data, 1, Language.javascript, [], 0⟩] ++ [RItem.plain "z".data])) ∧
    containsSub (jsSL []) "z".data = false ∧
    (∃ fs2, Instrumenter.removeAllInstrumentsFromFile "/a.js".data (⟨fun p => if p = "/a.js".data then some (renderItems ([Instrumenter.jsRegionItem 9229 ⟨"j1".data, "/a.js".data, 1, Language.javascript, [], 0⟩] ++ [RItem.plain "z".data])) else none, fun _ => true⟩ : FS) =
        .ok (fs2, ([Instrumenter.jsRegionItem 9229 ⟨"j1".data, "/a.js".data, 1, Language.javascript, [], 0⟩].filter isRegion).length) ∧
      fs2.files "/a.js".data =
        some (renderItems ([Instrumenter.jsRegionItem 9229 ⟨"j1".data, "/a.js".data, 1, Language.javascript, [], 0⟩].filter (fun it => !isRegion it) ++
          [RItem.plain "z".data])) ∧
      (∀ p, p ≠ "/a.js".data → fs2.files p = (⟨fun p => if p = "/a.js".data then some (renderItems ([Instrumenter.jsRegionItem 9229 ⟨"j1".data, "/a.js".data, 1, Language.javascript, [], 0⟩] ++ [RItem.plain "z".data])) else none, fun _ => true⟩ : FS).files p) ∧
      ((removeScan (pySL []) pyEL
          (renderItems ([Instrumenter.jsRegionItem 9229 ⟨"j1".data, "/a.js".data, 1, Language.javascript, [], 0⟩] ++ [RItem.plain "z".data]))).1 +
        (removeScan (jsSL []) jsEL (removeScan (pySL []) pyEL
          (renderItems ([Instrumenter.jsRegionItem 9229 ⟨"j1".data, "/a.js".data, 1, Language.javascript, [], 0⟩] ++ [RItem.plain "z".data]))).2).1 =
        ([Instrumenter.jsRegionItem 9229 ⟨"j1".data, "/a.js".data, 1, Language.javascript, [], 0⟩].filter isRegion).length ∧
      (removeScan (jsSL []) jsEL (removeScan (pySL []) pyEL
        (renderItems ([Instrumenter.jsRegionItem 9229 ⟨"j1".data, "/a.js".data, 1, Language.javascript, [], 0⟩] ++ [RItem.plain "z".data]))).2).2 =
        renderItems ([Instrumenter.jsRegionItem 9229 ⟨"j1".data, "/a.js".data, 1, Language.javascript, [], 0⟩].filter (fun it => !isRegion it) ++
          [RItem.plain "z".data]))) :=
  ⟨rfl, by decide,
    c2_wildcard_bulk_removal 9229 (⟨fun p => if p = "/a.js".data then some (renderItems ([Instrumenter.jsRegionItem 9229 ⟨"j1".data, "/a.js".data, 1, Language.javascript, [], 0⟩] ++ [RItem.plain "z".data])) else none, fun _ => true⟩ : FS) "/a.js".data [Instrumenter.jsRegionItem 9229 ⟨"j1".data, "/a.js".data, 1, Language.javascript, [], 0⟩] "z".data rfl rfl
      (by decide) (by decide) (by decide)
      (by
        intro it hit
        rw [List.mem_singleton] at hit
        subst hit
        exact Or.inl ⟨⟨"j1".data, "/a.js".data, 1, Language.javascript, [], 0⟩, by decide, Or.inl rfl⟩)⟩

/-- C8 (confirmed): a POST to /log whose body is not valid JSON is answered
400 with body `{"error":"Invalid JSON"}` and the log store is returned
entirely unchanged. -/
theorem c8_invalid_json_rejected (port now : Nat) (body store : Chars)
    (h : Json.parse body = none) :
    DebugLogServer.handleRequest port ⟨"POST".data, "/log".data, body⟩ now store =
      (⟨400, "\x7b\"error\":\"Invalid JSON\"\x7d".data⟩, store) := by
  rw [DebugLogServer.handleRequest,
    if_neg (by decide : ¬(("POST".data : Chars) = "OPTIONS".data)),
    if_neg (by decide : ¬(("POST".data : Chars) = "GET".data ∧
      ("/log".data : Chars) = "/health".data)),
    if_pos ⟨rfl, rfl⟩, h]
  rfl

/-- Witness for C8: the spec's own example body `not json`. -/
theorem c8_invalid_json_rejected_witness :
    Json.parse "not json".data = none ∧
    DebugLogServer.handleRequest 9876
      ⟨"POST".data, "/log".data, "not json".data⟩ 5 "x\n".data =
      (⟨400, "\x7b\"error\":\"Invalid JSON\"\x7d".data⟩, "x\n".data) :=
  ⟨rfl, c8_invalid_json_rejected 9876 5 "not json".data "x\n".data rfl⟩

/-- C10 (confirmed): with an active session whose log file is missing from
the filesystem, `readLogs` returns the empty string, not an error. -/
theorem c10_read_logs_missing_file (st : SMState) (sess : DebugSession)
    (h1 : st.session = some sess) (h2 : st.fs.files sess.logFile = none) :
    SessionManager.readLogs st = .ok [] := by
  simp only [SessionManager.readLogs, h1, h2]

/-- Witness for C10: concrete active session over an empty filesystem. -/
theorem c10_read_logs_missing_file_witness :
    (⟨"/wd".data, some ⟨"s1".data, 9876, 0, "/wd/debug.log".data, []⟩, true,
      ⟨fun _ => none, fun _ => true⟩⟩ : SMState).session =
      some ⟨"s1".data, 9876, 0, "/wd/debug.log".data, []⟩ ∧
    SessionManager.readLogs
      ⟨"/wd".data, some ⟨"s1".data, 9876, 0, "/wd/debug.log".data, []⟩, true,
        ⟨fun _ => none, fun _ => true⟩⟩ = .ok [] :=
  ⟨rfl, c10_read_logs_missing_file
    ⟨"/wd".data, some ⟨"s1".data, 9876, 0, "/wd/debug.log".data, []⟩, true,
      ⟨fun _ => none, fun _ => true⟩⟩
    ⟨"s1".data, 9876, 0, "/wd/debug.log".data, []⟩ rfl rfl⟩

/-- C9 (confirmed): with no active session, `list_instruments` answers with
the non-error empty message, while read/add/remove/clear all answer with
`isError` results. -/
theorem c9_inactive_session_behaviour (g : GState)
    (h : g.sm.session = none)
    (format file : Chars) (line : Nat) (capture : List Chars) (env : Env)
    (fileArg : Option Chars) :
    handleListInstruments g = (⟨"No active instruments.".data, false⟩, g) ∧
    (handleReadDebugLogs format g).1.isError = true ∧
    (handleAddInstrument file line capture env g).1.isError = true ∧
    (handleRemoveInstruments fileArg g).1.isError = true ∧
    (handleClearDebugLogs g).1.isError = true := by
  refine ⟨?_, ?_, ?_, ?_, ?_⟩
  · simp [handleListInstruments, SessionManager.getInstruments, h]
  · simp [handleReadDebugLogs, h]
  · simp only [handleAddInstrument, h]
  · simp only [handleRemoveInstruments, h]
  · simp [handleClearDebugLogs, h]

/-- Witness for C9 on a concrete inactive state. -/
theorem c9_inactive_session_behaviour_witness :
    (⟨⟨"/wd".data, none, false, ⟨fun _ => none, fun _ => true⟩⟩, none⟩ :
      GState).sm.session = none ∧
    (handleListInstruments
        ⟨⟨"/wd".data, none, false, ⟨fun _ => none, fun _ => true⟩⟩, none⟩ =
      (⟨"No active instruments.".data, false⟩,
        ⟨⟨"/wd".data, none, false, ⟨fun _ => none, fun _ => true⟩⟩, none⟩) ∧
    (handleReadDebugLogs "raw".data
      ⟨⟨"/wd".data, none, false, ⟨fun _ => none, fun _ => true⟩⟩,
        none⟩).1.isError = true ∧
    (handleAddInstrument "a.js".data 1 [] ⟨"u".data, 0, true⟩
      ⟨⟨"/wd".data, none, false, ⟨fun _ => none, fun _ => true⟩⟩,
        none⟩).1.isError = true ∧
    (handleRemoveInstruments none
      ⟨⟨"/wd".data, none, false, ⟨fun _ => none, fun _ => true⟩⟩,
        none⟩).1.isError = true ∧
    (handleClearDebugLogs
      ⟨⟨"/wd".data, none, false, ⟨fun _ => none, fun _ => true⟩⟩,
        none⟩).1.isError = true) :=
  ⟨rfl, c9_inactive_session_behaviour
    ⟨⟨"/wd".data, none, false, ⟨fun _ => none, fun _ => true⟩⟩, none⟩ rfl
    "raw".data "a.js".data 1 [] ⟨"u".data, 0, true⟩ none⟩

/-- C7 (corrected): a POST to /log whose body parses as a JSON **object**
is answered 200 `{"success":true}` and exactly one newline-terminated line
is appended: the posted object with a numeric `receivedAt` field set
(spread semantics: an existing `receivedAt` is overwritten in place).
For non-object documents the spread drops or mangles the posted document
(see the counterexample). -/
theorem c7_valid_json_object_logged (port now : Nat) (body store : Chars)
    (fields : List (Chars × Json))
    (h : Json.parse body = some (.obj fields)) :
    DebugLogServer.handleRequest port ⟨"POST".data, "/log".data, body⟩ now store =
      (⟨200, "\x7b\"success\":true\x7d".data⟩,
        store ++ Json.stringify (.obj (assocSet fields "receivedAt".data
          (.num (Int.ofNat now) 0))) ++ ['\n']) ∧
    freeOf '\n' (Json.stringify (.obj (assocSet fields "receivedAt".data
      (.num (Int.ofNat now) 0)))) = true := by
  constructor
  · rw [DebugLogServer.handleRequest,
      if_neg (by decide : ¬(("POST".data : Chars) = "OPTIONS".data)),
      if_neg (by decide : ¬(("POST".data : Chars) = "GET".data ∧
        ("/log".data : Chars) = "/health".data)),
      if_pos ⟨rfl, rfl⟩, h]
    rfl
  · exact Json.stringify_nlFree _

/-- Witness for C7 at the spec's example shape. -/
theorem c7_valid_json_object_logged_witness :
    Json.parse "\x7b\"a\":1\x7d".data = some (.obj [("a".data, .num 1 0)]) ∧
    DebugLogServer.handleRequest 9876
      ⟨"POST".data, "/log".data, "\x7b\"a\":1\x7d".data⟩ 123 [] =
      (⟨200, "\x7b\"success\":true\x7d".data⟩,
        [] ++ Json.stringify (.obj (assocSet [("a".data, .num 1 0)]
          "receivedAt".data (.num (Int.ofNat 123) 0))) ++ ['\n']) ∧
    freeOf '\n' (Json.stringify (.obj (assocSet [("a".data, .num 1 0)]
      "receivedAt".data (.num (Int.ofNat 123) 0)))) = true :=
  ⟨rfl, c7_valid_json_object_logged 9876 123 "\x7b\"a\":1\x7d".data []
    [("a".data, .num 1 0)] rfl⟩

/-- C7 counterexample: the body `5` is valid JSON, the response is 200 and
one line is appended — but the line is `\x7b"receivedAt":123\x7d`: the
posted document `5` does not occur in it at all, so the appended line does
not consist of the posted document augmented with `receivedAt`. -/
theorem c7_nonobject_counterexample :
    Json.parse "5".data = some (.num 5 0) ∧
    DebugLogServer.handleRequest 9876 ⟨"POST".data, "/log".data, "5".data⟩ 123 [] =
      (⟨200, "\x7b\"success\":true\x7d".data⟩, "\x7b\"receivedAt\":123\x7d\n".data) ∧
    containsSub "5".data "\x7b\"receivedAt\":123\x7d\n".data = false :=
  ⟨rfl, rfl, by decide⟩

/-- C6 (confirmed): `startSession` while a session is active fails with the
already-active error and returns the state unchanged; after `stopSession`,
a start (writable log path, free port) succeeds and the log store is reset
to the empty file. -/
theorem c6_session_lifecycle (port : Nat) (env : Env) :
    (∀ (st : SMState) (sess : DebugSession), st.session = some sess →
      SessionManager.startSession port env st =
        (.error "Debug session already active. Stop it first.".data, st)) ∧
    (∀ st0 : SMState,
      st0.fs.writable (resolvePath st0.workingDirectory "debug.log".data) = true →
      env.portFree = true →
      ∃ sess st2,
        SessionManager.startSession port env (SessionManager.stopSession st0) =
          (.ok sess, st2) ∧
        st2.session = some sess ∧
        st2.fs.files sess.logFile = some []) := by
  constructor
  · intro st sess h
    simp [SessionManager.startSession, h]
  · intro st0 hwrit hport
    refine ⟨⟨env.uuid, port, env.now,
        resolvePath st0.workingDirectory "debug.log".data, []⟩,
      ⟨st0.workingDirectory,
        some ⟨env.uuid, port, env.now,
          resolvePath st0.workingDirectory "debug.log".data, []⟩,
        true,
        st0.fs.setFile (resolvePath st0.workingDirectory "debug.log".data) []⟩,
      ?_, rfl, ?_⟩
    · simp only [SessionManager.startSession, SessionManager.stopSession]
      rw [FS.writeFile_ok hwrit]
      simp [hport]
    · exact FS.setFile_same _ _ _

/-- C4 (corrected): with an active session, a line of 0 fails early with no
mutation at all; but a missing file or an out-of-range line (> lineCount+1)
fails only *after* the registry was updated: the handler returns an error
and the filesystem is untouched, yet the session registry retains the
phantom instrument — the claim's "Registry is unchanged" conjunct is false
for those inputs (see the counterexample). -/
theorem c4_add_instrument_failure (file : Chars) (line : Nat)
    (capture : List Chars) (env : Env) (g : GState) (sess : DebugSession)
    (port : Nat) (hsess : g.sm.session = some sess)
    (hport : g.instrumenterPort = some port) :
    (handleAddInstrument file 0 capture env g =
      (⟨"Missing required parameters: file and line".data, true⟩, g)) ∧
    (file ≠ [] → line ≠ 0 →
      (g.sm.fs.files (resolvePath g.sm.workingDirectory file) = none ∨
       (∃ content, g.sm.fs.files (resolvePath g.sm.workingDirectory file) =
          some content ∧ (splitNl content).length + 1 < line)) →
      ∃ e, handleAddInstrument file line capture env g =
        (⟨"Error: ".data ++ e, true⟩,
         ⟨⟨g.sm.workingDirectory,
            some ⟨sess.id, sess.port, sess.startedAt, sess.logFile,
              assocSet sess.instruments ("dbg-".data ++ env.uuid)
                ⟨"dbg-".data ++ env.uuid, resolvePath g.sm.workingDirectory file,
                 line, detectLanguage file, capture, env.now⟩⟩,
            g.sm.serverRunning, g.sm.fs⟩,
          some port⟩)) := by
  constructor
  · simp [handleAddInstrument, hsess, hport]
  · intro hf hl hfail
    have hfe : file.isEmpty = false := by
      cases file
      · exact absurd rfl hf
      · rfl
    have hle : (line == 0) = false := by simp [hl]
    rcases hfail with hnone | ⟨content, hsome, hrange⟩
    · refine ⟨"File not found: ".data ++ resolvePath g.sm.workingDirectory file, ?_⟩
      simp only [handleAddInstrument, hsess, hport, hfe, hle, Bool.or_self,
        Bool.or_false, Bool.false_or, Bool.false_eq_true, if_false,
        SessionManager.addInstrument, Instrumenter.addInstrument, hnone]
    · have hcond : (decide (line < 1) ||
          decide (line > (splitNl content).length + 1)) = true := by
        have h2 : line > (splitNl content).length + 1 := hrange
        simp [h2]
      refine ⟨"Line ".data ++ natChars line ++ " is out of range".data, ?_⟩
      simp only [handleAddInstrument, hsess, hport, hfe, hle, Bool.or_self,
        Bool.or_false, Bool.false_or, Bool.false_eq_true, if_false,
        SessionManager.addInstrument, Instrumenter.addInstrument, hsome,
        hcond, if_true]

/-- Witness for C4: active session over an empty filesystem. -/
theorem c4_add_instrument_failure_witness :
    (⟨⟨"/wd".data, some ⟨"s1".data, 9876, 0, "/wd/debug.log".data, []⟩, true,
        ⟨fun _ => none, fun _ => true⟩⟩, some 9229⟩ : GState).sm.session =
      some ⟨"s1".data, 9876, 0, "/wd/debug.log".data, []⟩ ∧
    ((handleAddInstrument "b.js".data 0 [] ⟨"u1".data, 7, true⟩
        ⟨⟨"/wd".data, some ⟨"s1".data, 9876, 0, "/wd/debug.log".data, []⟩, true,
          ⟨fun _ => none, fun _ => true⟩⟩, some 9229⟩ =
      (⟨"Missing required parameters: file and line".data, true⟩,
        ⟨⟨"/wd".data, some ⟨"s1".data, 9876, 0, "/wd/debug.log".data, []⟩, true,
          ⟨fun _ => none, fun _ => true⟩⟩, some 9229⟩)) ∧
    ("b.js".data ≠ ([] : Chars) → (3 : Nat) ≠ 0 →
      ((⟨⟨"/wd".data, some ⟨"s1".data, 9876, 0, "/wd/debug.log".data, []⟩, true,
          ⟨fun _ => none, fun _ => true⟩⟩, some 9229⟩ : GState).sm.fs.files
        (resolvePath "/wd".data "b.js".data) = none ∨
       (∃ content, (⟨⟨"/wd".data,
          some ⟨"s1".data, 9876, 0, "/wd/debug.log".data, []⟩, true,
          ⟨fun _ => none, fun _ => true⟩⟩, some 9229⟩ : GState).sm.fs.files
          (resolvePath "/wd".data "b.js".data) = some content ∧
          (splitNl content).length + 1 < 3)) →
      ∃ e, handleAddInstrument "b.js".data 3 [] ⟨"u1".data, 7, true⟩
          ⟨⟨"/wd".data, some ⟨"s1".data, 9876, 0, "/wd/debug.log".data, []⟩, true,
            ⟨fun _ => none, fun _ => true⟩⟩, some 9229⟩ =
        (⟨"Error: ".data ++ e, true⟩,
         ⟨⟨"/wd".data,
            some ⟨"s1".data, 9876, 0, "/wd/debug.log".data,
              assocSet [] ("dbg-".data ++ "u1".data)
                ⟨"dbg-".data ++ "u1".data, resolvePath "/wd".data "b.js".data,
                 3, detectLanguage "b.js".data, [], 7⟩⟩,
            true, ⟨fun _ => none, fun _ => true⟩⟩,
          some 9229⟩))) :=
  ⟨rfl, c4_add_instrument_failure "b.js".data 3 [] ⟨"u1".data, 7, true⟩
    ⟨⟨"/wd".data, some ⟨"s1".data, 9876, 0, "/wd/debug.log".data, []⟩, true,
      ⟨fun _ => none, fun _ => true⟩⟩, some 9229⟩
    ⟨"s1".data, 9876, 0, "/wd/debug.log".data, []⟩ 9229 rfl rfl⟩

/-- C4 counterexample: the add fails (missing file) and the file system is
untouched, yet the registry now holds the phantom instrument — it is not
unchanged as the claim asserts. -/
theorem c4_registry_counterexample :
    (handleAddInstrument "b.js".data 3 [] ⟨"u1".data, 7, true⟩
      ⟨⟨"/wd".data, some ⟨"s1".data, 9876, 0, "/wd/debug.log".data, []⟩, true,
        ⟨fun _ => none, fun _ => true⟩⟩, some 9229⟩).1.isError = true ∧
    SessionManager.getInstruments
      (handleAddInstrument "b.js".data 3 [] ⟨"u1".data, 7, true⟩
        ⟨⟨"/wd".data, some ⟨"s1".data, 9876, 0, "/wd/debug.log".data, []⟩, true,
          ⟨fun _ => none, fun _ => true⟩⟩, some 9229⟩).2.sm =
      [⟨"dbg-u1".data, "/wd/b.js".data, 3, Language.javascript, [], 7⟩] ∧
    SessionManager.getInstruments
      (⟨⟨"/wd".data, some ⟨"s1".data, 9876, 0, "/wd/debug.log".data, []⟩, true,
        ⟨fun _ => none, fun _ => true⟩⟩, some 9229⟩ : GState).sm = [] ∧
    (handleAddInstrument "b.js".data 3 [] ⟨"u1".data, 7, true⟩
      ⟨⟨"/wd".data, some ⟨"s1".data, 9876, 0, "/wd/debug.log".data, []⟩, true,
        ⟨fun _ => none, fun _ => true⟩⟩, some 9229⟩).2.sm.fs.files
      "/wd/b.js".data = none :=
  ⟨rfl, rfl, rfl, rfl⟩

/-- The condition under which `removeInstrument` is guaranteed not to
throw: the instrument's file is missing, or it is writable and holds
structured text for the instrument's own matcher. -/
def removableOk (i : Instrument) (fs : FS) : Prop :=
  fs.files i.file = none ∨
  (i.cleanB = true ∧ fs.writable i.file = true ∧
    ∃ its last, fs.files i.file = some (renderItems (its ++ [.plain last])) ∧
      freeOf '\n' last = true ∧
      containsSub (Instrumenter.startLitFor (REGION_PREFIX ++ "-".data ++ i.id)
        i.language) last = false ∧
      ∀ it ∈ its, RItem.okB
        (Instrumenter.startLitFor (REGION_PREFIX ++ "-".data ++ i.id) i.language)
        (Instrumenter.endLitFor i.language) it = true)

/-- One guaranteed-safe removal: no thrown error, other paths untouched,
and afterwards the instrument's start marker is absent from its file. -/
theorem removeInstrument_removable {i : Instrument} {fs : FS}
    (h : removableOk i fs) :
    ∃ fs' b, Instrumenter.removeInstrument i fs = .ok (fs', b) ∧
      (∀ p, p ≠ i.file → fs'.files p = fs.files p) ∧
      fs'.writable = fs.writable ∧
      (∀ c, fs'.files i.file = some c →
        containsSub (Instrumenter.startLitFor
          (REGION_PREFIX ++ "-".data ++ i.id) i.language) c = false) := by
  rcases h with hnone | ⟨hc, hw, its, last, hsome, hlast1, hlast2, hok⟩
  · refine ⟨fs, false, ?_, fun p _ => rfl, rfl, ?_⟩
    · simp only [Instrumenter.removeInstrument, hnone]
    · intro c hcc
      rw [hnone] at hcc
      cases hcc
  · obtain ⟨hid1, hid2, hf1, hf2, hcap⟩ := Instrument.cleanB_spec hc
    have hridnl : freeOf '\n' (REGION_PREFIX ++ "-".data ++ i.id) = true := by
      rw [freeOf_append, hid2, freeOf_append]
      decide
    have hslne := startLitFor_ne_nil (REGION_PREFIX ++ "-".data ++ i.id) i.language
    have hslnl := startLitFor_nlFree hridnl i.language
    have helne := endLitFor_ne_nil i.language
    have helnl := endLitFor_nlFree i.language
    have hmain := removeScan_renderItems hslne helne hslnl helnl its last
      hlast1 hlast2 hok
    have hkeptpass : ∀ it ∈ its.filter (fun it =>
        !RItem.matchesB (Instrumenter.startLitFor
          (REGION_PREFIX ++ "-".data ++ i.id) i.language)
          (Instrumenter.endLitFor i.language) it) ++ [RItem.plain last],
        it.passesB (Instrumenter.startLitFor
          (REGION_PREFIX ++ "-".data ++ i.id) i.language) = true := by
      intro it hit
      rcases List.mem_append.mp hit with hit2 | hit2
      · rw [List.mem_filter] at hit2
        obtain ⟨hmem, hnm⟩ := hit2
        have hok2 := hok it hmem
        rw [RItem.okB, Bool.or_eq_true] at hok2
        rcases hok2 with hok2 | hok2
        · rw [hok2] at hnm
          cases hnm
        · exact hok2
      · rw [List.mem_singleton] at hit2
        subst hit2
        show (freeOf '\n' last && !containsSub (Instrumenter.startLitFor
          (REGION_PREFIX ++ "-".data ++ i.id) i.language) last) = true
        rw [hlast1, hlast2]
        rfl
    have hfree := renderItems_not_contains hslne hslnl _ hkeptpass
    have hrr : Instrumenter.removeRegion (renderItems (its ++ [.plain last]))
        (REGION_PREFIX ++ "-".data ++ i.id) i.language =
        renderItems (its.filter (fun it =>
          !RItem.matchesB (Instrumenter.startLitFor
            (REGION_PREFIX ++ "-".data ++ i.id) i.language)
            (Instrumenter.endLitFor i.language) it) ++ [RItem.plain last]) := by
      rw [Instrumenter.removeRegion, hmain]
    by_cases heq : renderItems (its.filter (fun it =>
        !RItem.matchesB (Instrumenter.startLitFor
          (REGION_PREFIX ++ "-".data ++ i.id) i.language)
          (Instrumenter.endLitFor i.language) it) ++ [RItem.plain last]) =
        renderItems (its ++ [.plain last])
    · refine ⟨fs, false, ?_, fun p _ => rfl, rfl, ?_⟩
      · simp only [Instrumenter.removeInstrument, hsome, hrr, ne_eq, heq,
          not_true_eq_false, if_false]
      · intro c hcc
        rw [hsome] at hcc
        injection hcc with hcc
        rw [← hcc, ← heq]
        exact hfree
    · refine ⟨fs.setFile i.file (renderItems (its.filter (fun it =>
        !RItem.matchesB (Instrumenter.startLitFor
          (REGION_PREFIX ++ "-".data ++ i.id) i.language)
          (Instrumenter.endLitFor i.language) it) ++ [RItem.plain last])),
        true, ?_, ?_, rfl, ?_⟩
      · simp only [Instrumenter.removeInstrument, hsome, hrr, ne_eq, heq,
          not_false_eq_true, if_true, FS.writeFile_ok hw]
      · intro p hp
        exact FS.setFile_other _ _ _ hp
      · intro c hcc
        rw [FS.setFile_same] at hcc
        injection hcc with hcc
        rw [← hcc]
        exact hfree

/-- The stop-handler's removal loop under per-instrument removability and
pairwise-distinct files: no abort, untouched paths preserved, and every
instrument's marker is absent afterwards. -/
theorem removeLoop_removable :
    ∀ (insts : List Instrument) (fs : FS),
      insts.Pairwise (fun a b => a.file ≠ b.file) →
      (∀ i ∈ insts, removableOk i fs) →
      ∃ fs', removeLoop insts fs = (fs', none) ∧
        (∀ p, (∀ i ∈ insts, p ≠ i.file) → fs'.files p = fs.files p) ∧
        fs'.writable = fs.writable ∧
        (∀ i ∈ insts, ∀ c, fs'.files i.file = some c →
          containsSub (Instrumenter.startLitFor
            (REGION_PREFIX ++ "-".data ++ i.id) i.language) c = false) := by
  intro insts
  induction insts with
  | nil =>
    intro fs _ _
    exact ⟨fs, rfl, fun p _ => rfl, rfl, fun i hi => absurd hi (List.not_mem_nil i)⟩
  | cons i rest ih =>
    intro fs hp hrem
    rw [List.pairwise_cons] at hp
    obtain ⟨hd, hprest⟩ := hp
    obtain ⟨fs1, b, heq1, hframe1, hwrit1, hmark1⟩ :=
      removeInstrument_removable (hrem i (by simp))
    have hrem1 : ∀ j ∈ rest, removableOk j fs1 := by
      intro j hj
      have hne : j.file ≠ i.file := fun h => hd j hj h.symm
      rcases hrem j (by simp [hj]) with hnone | ⟨hc, hw, its, last, hsome, h4, h5, h6⟩
      · exact Or.inl (by rw [hframe1 j.file hne]; exact hnone)
      · exact Or.inr ⟨hc, by rw [hwrit1]; exact hw,
          its, last, by rw [hframe1 j.file hne]; exact hsome, h4, h5, h6⟩
    obtain ⟨fs2, heq2, hframe2, hwrit2, hmark2⟩ := ih fs1 hprest hrem1
    refine ⟨fs2, ?_, ?_, ?_, ?_⟩
    · rw [removeLoop, heq1]
      exact heq2
    · intro p hpall
      rw [hframe2 p (fun j hj => hpall j (by simp [hj])),
        hframe1 p (hpall i (by simp))]
    · rw [hwrit2, hwrit1]
    · intro j hj c hcc
      rcases List.mem_cons.mp hj with rfl | hj2
      · have hif : fs2.files j.file = fs1.files j.file :=
          hframe2 j.file (fun r hr => fun h => hd r hr h)
        rw [hif] at hcc
        exact hmark1 c hcc
      · exact hmark2 j hj2 c hcc

/-- C5 (corrected): when every registered instrument is removable without
a thrown error (file missing, or writable structured content) and the
instruments live in distinct files, stopping the session removes every
instrument's marker from its file, shuts the collector down and empties
the registry.  A *thrown* removal failure, however, aborts the loop before
the remaining instruments and before `stopSession` (see the
counterexample), so the claim's best-effort conjunct is false. -/
theorem c5_stop_cleanup (g : GState) (sess : DebugSession) (port : Nat)
    (hsess : g.sm.session = some sess) (hport : g.instrumenterPort = some port)
    (hdist : (SessionManager.getInstruments g.sm).Pairwise
      (fun a b => a.file ≠ b.file))
    (hrem : ∀ i ∈ SessionManager.getInstruments g.sm, removableOk i g.sm.fs) :
    ∃ fs', handleStopDebugSession g =
      ((⟨"Debug session stopped. Removed ".data ++
          natChars (SessionManager.getInstruments g.sm).length ++
          " instrument(s) from code.".data, false⟩ : ToolResult),
       ⟨⟨g.sm.workingDirectory, none, false, fs'⟩, none⟩) ∧
      SessionManager.getInstruments
        (⟨⟨g.sm.workingDirectory, none, false, fs'⟩, none⟩ : GState).sm = [] ∧
      (∀ i ∈ SessionManager.getInstruments g.sm, ∀ c,
        fs'.files i.file = some c →
        containsSub (Instrumenter.startLitFor
          (REGION_PREFIX ++ "-".data ++ i.id) i.language) c = false) ∧
      (∀ p, (∀ i ∈ SessionManager.getInstruments g.sm, p ≠ i.file) →
        fs'.files p = g.sm.fs.files p) := by
  obtain ⟨fs', heqloop, hframe, hwrit, hmark⟩ :=
    removeLoop_removable (SessionManager.getInstruments g.sm) g.sm.fs hdist hrem
  refine ⟨fs', ?_, rfl, hmark, hframe⟩
  have hactive : SessionManager.isActive g.sm = true := by
    rw [SessionManager.isActive, hsess]
    rfl
  rw [handleStopDebugSession, if_neg (by rw [hactive]; exact fun h => by cases h)]
  simp only [hport, heqloop, SessionManager.stopSession]

/-- Witness for C5: one registered instrument whose file is missing. -/
theorem c5_stop_cleanup_witness :
    (⟨⟨"/wd".data, some ⟨"s1".data, 9876, 0, "/wd/debug.log".data,
        [("dbg-u1".data, ⟨"dbg-u1".data, "/wd/f1.js".data, 1,
          Language.javascript, [], 0⟩)]⟩, true,
      ⟨fun _ => none, fun _ => true⟩⟩, some 9229⟩ : GState).sm.session =
      some ⟨"s1".data, 9876, 0, "/wd/debug.log".data,
        [("dbg-u1".data, ⟨"dbg-u1".data, "/wd/f1.js".data, 1,
          Language.javascript, [], 0⟩)]⟩ ∧
    (∃ fs', handleStopDebugSession
        ⟨⟨"/wd".data, some ⟨"s1".data, 9876, 0, "/wd/debug.log".data,
            [("dbg-u1".data, ⟨"dbg-u1".data, "/wd/f1.js".data, 1,
              Language.javascript, [], 0⟩)]⟩, true,
          ⟨fun _ => none, fun _ => true⟩⟩, some 9229⟩ =
        ((⟨"Debug session stopped. Removed ".data ++
            natChars (SessionManager.getInstruments
              (⟨⟨"/wd".data, some ⟨"s1".data, 9876, 0, "/wd/debug.log".data,
                  [("dbg-u1".data, ⟨"dbg-u1".data, "/wd/f1.js".data, 1,
                    Language.javascript, [], 0⟩)]⟩, true,
                ⟨fun _ => none, fun _ => true⟩⟩, some 9229⟩ : GState).sm).length ++
            " instrument(s) from code.".data, false⟩ : ToolResult),
         ⟨⟨"/wd".data, none, false, fs'⟩, none⟩) ∧
      SessionManager.getInstruments
        (⟨⟨"/wd".data, none, false, fs'⟩, none⟩ : GState).sm = [] ∧
      (∀ i ∈ SessionManager.getInstruments
          (⟨⟨"/wd".data, some ⟨"s1".data, 9876, 0, "/wd/debug.log".data,
              [("dbg-u1".data, ⟨"dbg-u1".data, "/wd/f1.js".data, 1,
                Language.javascript, [], 0⟩)]⟩, true,
            ⟨fun _ => none, fun _ => true⟩⟩, some 9229⟩ : GState).sm, ∀ c,
        fs'.files i.file = some c →
        containsSub (Instrumenter.startLitFor
          (REGION_PREFIX ++ "-".data ++ i.id) i.language) c = false) ∧
      (∀ p, (∀ i ∈ SessionManager.getInstruments
          (⟨⟨"/wd".data, some ⟨"s1".data, 9876, 0, "/wd/debug.log".data,
              [("dbg-u1".data, ⟨"dbg-u1".data, "/wd/f1.js".data, 1,
                Language.javascript, [], 0⟩)]⟩, true,
            ⟨fun _ => none, fun _ => true⟩⟩, some 9229⟩ : GState).sm,
          p ≠ i.file) →
        fs'.files p = (⟨⟨"/wd".data,
          some ⟨"s1".data, 9876, 0, "/wd/debug.log".data,
            [("dbg-u1".data, ⟨"dbg-u1".data, "/wd/f1.js".data, 1,
              Language.javascript, [], 0⟩)]⟩, true,
          ⟨fun _ => none, fun _ => true⟩⟩, some 9229⟩ : GState).sm.fs.files p)) :=
  ⟨rfl, c5_stop_cleanup
    ⟨⟨"/wd".data, some ⟨"s1".data, 9876, 0, "/wd/debug.log".data,
        [("dbg-u1".data, ⟨"dbg-u1".data, "/wd/f1.js".data, 1,
          Language.javascript, [], 0⟩)]⟩, true,
      ⟨fun _ => none, fun _ => true⟩⟩, some 9229⟩
    ⟨"s1".data, 9876, 0, "/wd/debug.log".data,
      [("dbg-u1".data, ⟨"dbg-u1".data, "/wd/f1.js".data, 1,
        Language.javascript, [], 0⟩)]⟩ 9229 rfl rfl
    (by simp [SessionManager.getInstruments])
    (by
      intro i hi
      simp only [SessionManager.getInstruments, List.map_cons, List.map_nil,
        List.mem_singleton] at hi
      subst hi
      exact Or.inl rfl)⟩

set_option maxRecDepth 100000 in
/-- C5 counterexample: two live instruments; the first file's write throws
(EACCES), the loop aborts before the second instrument, `stopSession` is
never reached — the session stays active, the collector keeps running, the
registry still holds both instruments and the second file still contains
its delimiter marker. -/
theorem c5_stop_abort_counterexample :
    (handleStopDebugSession
      ⟨⟨"/wd".data, some ⟨"s1".data, 9876, 0, "/wd/debug.log".data,
          [("a1".data, ⟨"a1".data, "/wd/f1.js".data, 1,
              Language.javascript, [], 0⟩),
           ("a2".data, ⟨"a2".data, "/wd/f2.js".data, 1,
              Language.javascript, [], 0⟩)]⟩, true,
        ⟨fun p => if p = "/wd/f1.js".data then
            some "// #region claude-debug-a1\nX\n// #endregion\nrest".data
          else if p = "/wd/f2.js".data then
            some "// #region claude-debug-a2\nY\n// #endregion\nrest2".data
          else none,
          fun p => !(p = "/wd/f1.js".data : Bool)⟩⟩,
       some 9229⟩).1.isError = true ∧
    (handleStopDebugSession
      ⟨⟨"/wd".data, some ⟨"s1".data, 9876, 0, "/wd/debug.log".data,
          [("a1".data, ⟨"a1".data, "/wd/f1.js".data, 1,
              Language.javascript, [], 0⟩),
           ("a2".data, ⟨"a2".data, "/wd/f2.js".data, 1,
              Language.javascript, [], 0⟩)]⟩, true,
        ⟨fun p => if p = "/wd/f1.js".data then
            some "// #region claude-debug-a1\nX\n// #endregion\nrest".data
          else if p = "/wd/f2.js".data then
            some "// #region claude-debug-a2\nY\n// #endregion\nrest2".data
          else none,
          fun p => !(p = "/wd/f1.js".data : Bool)⟩⟩,
       some 9229⟩).2.sm.session.isSome = true ∧
    (handleStopDebugSession
      ⟨⟨"/wd".data, some ⟨"s1".data, 9876, 0, "/wd/debug.log".data,
          [("a1".data, ⟨"a1".data, "/wd/f1.js".data, 1,
              Language.javascript, [], 0⟩),
           ("a2".data, ⟨"a2".data, "/wd/f2.js".data, 1,
              Language.javascript, [], 0⟩)]⟩, true,
        ⟨fun p => if p = "/wd/f1.js".data then
            some "// #region claude-debug-a1\nX\n// #endregion\nrest".data
          else if p = "/wd/f2.js".data then
            some "// #region claude-debug-a2\nY\n// #endregion\nrest2".data
          else none,
          fun p => !(p = "/wd/f1.js".data : Bool)⟩⟩,
       some 9229⟩).2.sm.serverRunning = true ∧
    containsSub "// #region claude-debug-a2".data
      (((handleStopDebugSession
        ⟨⟨"/wd".data, some ⟨"s1".data, 9876, 0, "/wd/debug.log".data,
            [("a1".data, ⟨"a1".data, "/wd/f1.js".data, 1,
                Language.javascript, [], 0⟩),
             ("a2".data, ⟨"a2".data, "/wd/f2.js".data, 1,
                Language.javascript, [], 0⟩)]⟩, true,
          ⟨fun p => if p = "/wd/f1.js".data then
              some "// #region claude-debug-a1\nX\n// #endregion\nrest".data
            else if p = "/wd/f2.js".data then
              some "// #region claude-debug-a2\nY\n// #endregion\nrest2".data
            else none,
            fun p => !(p = "/wd/f1.js".data : Bool)⟩⟩,
         some 9229⟩).2.sm.fs.files "/wd/f2.js".data).getD []) = true ∧
    SessionManager.getInstruments
      (handleStopDebugSession
        ⟨⟨"/wd".data, some ⟨"s1".data, 9876, 0, "/wd/debug.log".data,
            [("a1".data, ⟨"a1".data, "/wd/f1.js".data, 1,
                Language.javascript, [], 0⟩),
             ("a2".data, ⟨"a2".data, "/wd/f2.js".data, 1,
                Language.javascript, [], 0⟩)]⟩, true,
          ⟨fun p => if p = "/wd/f1.js".data then
              some "// #region claude-debug-a1\nX\n// #endregion\nrest".data
            else if p = "/wd/f2.js".data then
              some "// #region claude-debug-a2\nY\n// #endregion\nrest2".data
            else none,
            fun p => !(p = "/wd/f1.js".data : Bool)⟩⟩,
         some 9229⟩).2.sm ≠ [] :=
  ⟨by decide, by decide, by decide, by decide, by decide⟩

end AD
